import Mathlib

/-!
# Glass listen pipeline: reference buffer, VAD, echo canceller, chunker, encoder

A shallow embedding of `src/features/listen/renderer.js`, and of the route table of
`pickleglass_web/backend_node/routes/conversations.js`.

Number model.  A JavaScript number is modelled as `JSNum α = Option α` over a linear
ordered field `α` (instantiate `α` with `ℚ` to run the definitions, with `ℝ` to use the
real `sqrt`, `tanh` and `exp`): `some x` is the finite number `x` and `none` is `NaN`.
Arithmetic is exact: the rounding of IEEE doubles and of `Float32Array` stores is not
modelled, and neither are the infinities (a quotient `x / 0` is `NaN` here; in the code the
only divisor that can be zero is `output.length`, and then the numerator is `0`, for which
JavaScript gives `NaN` as well).  `Math.sqrt`, `Math.tanh` and `Math.exp` are platform
functions and are taken as a parameter `M : MathFns α`.
-/

namespace Glass

/-! ## Reference audio buffer -/

/-- `MAX_SYSTEM_BUFFER_SIZE`. -/
def MAX_SYSTEM_BUFFER_SIZE : Nat := 10

/-- An entry `{ data, timestamp }` of `systemAudioBuffer`; `data` is the payload as it
arrived (base64 text), `timestamp` the value of `Date.now()` at arrival. -/
structure ReferenceEntry where
  data : String
  timestamp : Nat
  deriving DecidableEq, Repr

/-- `xs.slice(-n)` for `n > 0`: the last `n` elements, all of them when there are fewer. -/
def sliceLast {β : Type} (n : Nat) (xs : List β) : List β :=
  xs.drop (xs.length - n)

/-- The `system-audio-data` handler: push the entry, then keep the last
`MAX_SYSTEM_BUFFER_SIZE` entries when the buffer got longer than that. -/
def onSystemAudioData (systemAudioBuffer : List ReferenceEntry) (e : ReferenceEntry) :
    List ReferenceEntry :=
  let pushed := systemAudioBuffer ++ [e]
  if pushed.length > MAX_SYSTEM_BUFFER_SIZE then sliceLast MAX_SYSTEM_BUFFER_SIZE pushed
  else pushed

/-- The buffer after a sequence of arrivals, starting from `buf`. -/
def arrivals (buf : List ReferenceEntry) (es : List ReferenceEntry) : List ReferenceEntry :=
  es.foldl onSystemAudioData buf

/-! ## JavaScript numbers -/

/-- JavaScript number: `some x` is the finite value `x`, `none` is `NaN`. -/
abbrev JSNum (α : Type) := Option α

/-- Platform functions `Math.sqrt`, `Math.tanh`, `Math.exp` on finite arguments. -/
structure MathFns (α : Type) where
  sqrt : α → α
  tanh : α → α
  exp : α → α

section Numbers

variable {α : Type} [LinearOrderedField α]

/-- JavaScript `a + b`. -/
def jsAdd : JSNum α → JSNum α → JSNum α
  | some a, some b => some (a + b)
  | _, _ => none

/-- JavaScript `a - b`. -/
def jsSub : JSNum α → JSNum α → JSNum α
  | some a, some b => some (a - b)
  | _, _ => none

/-- JavaScript `a * b`. -/
def jsMul : JSNum α → JSNum α → JSNum α
  | some a, some b => some (a * b)
  | _, _ => none

/-- JavaScript `a / b`; a zero divisor gives `NaN` (see the header on `x / 0`). -/
def jsDiv : JSNum α → JSNum α → JSNum α
  | some a, some b => if b = 0 then none else some (a / b)
  | _, _ => none

/-- JavaScript unary minus. -/
def jsNeg : JSNum α → JSNum α
  | some a => some (-a)
  | none => none

/-- JavaScript `a < b`: false as soon as one side is `NaN`. -/
def jsLt : JSNum α → JSNum α → Bool
  | some a, some b => decide (a < b)
  | _, _ => false

/-- JavaScript `a > b`. -/
def jsGt (a b : JSNum α) : Bool := jsLt b a

/-- `Math.max(a, b)`: `NaN` as soon as one argument is `NaN`. -/
def jsMax : JSNum α → JSNum α → JSNum α
  | some a, some b => some (max a b)
  | _, _ => none

/-- `Math.min(a, b)`: `NaN` as soon as one argument is `NaN`. -/
def jsMin : JSNum α → JSNum α → JSNum α
  | some a, some b => some (min a b)
  | _, _ => none

/-- `Math.abs(a)`. -/
def jsAbs : JSNum α → JSNum α
  | some a => some |a|
  | none => none

/-- `Math.sqrt(a)`: `NaN` on a negative argument and on `NaN`. -/
def jsSqrt (M : MathFns α) : JSNum α → JSNum α
  | some a => if a < 0 then none else some (M.sqrt a)
  | none => none

/-- `Math.tanh(a)`. -/
def jsTanh (M : MathFns α) : JSNum α → JSNum α
  | some a => some (M.tanh a)
  | none => none

/-- `Math.exp(a)`. -/
def jsExp (M : MathFns α) : JSNum α → JSNum α
  | some a => some (M.exp a)
  | none => none

/-- Typed-array read `xs[k]`: an index outside the array reads `undefined`, which is
`NaN` in arithmetic. -/
def jsIndex (xs : List (JSNum α)) (k : Int) : JSNum α :=
  if k < 0 then none else xs.getD k.toNat none

/-- The loop `for (i = 0; i < xs.length; i++) acc += xs[i] * xs[i]` started at `0`. -/
def sumOfSquares (xs : List (JSNum α)) : JSNum α :=
  xs.foldl (fun acc x => jsAdd acc (jsMul x x)) (some 0)

/-- Root mean square of a frame of finite samples, `sqrt(mean(sample^2))`. -/
def rms (M : MathFns α) (vs : List α) : α :=
  M.sqrt ((vs.map (fun v => v * v)).sum / (vs.length : α))

/-! ## Voice activity detector -/

/-- Default value of the `threshold` parameter of `isVoiceActive`. -/
def defaultThreshold : JSNum α := some (5 / 1000)

/-- `isVoiceActive(audioFloat32Array, threshold)`; the frame `none` is an absent
(`null`/`undefined`) argument. -/
def isVoiceActive (M : MathFns α) (audioFloat32Array : Option (List (JSNum α)))
    (threshold : JSNum α) : Bool :=
  match audioFloat32Array with
  | none => false
  | some xs =>
    if xs.length = 0 then false
    else
      let rms := jsSqrt M (jsDiv (sumOfSquares xs) (some (xs.length : α)))
      jsGt rms threshold

/-! ## Echo canceller -/

/-- The mutable state of a `SimpleAEC` instance.  The constructor also sets
`adaptiveFilter`, `mu`, `echoDelay`, `sampleRate`, `delaySamples`, `noiseFloor`,
`targetErr` and `adaptRate`; no method writes them, so the ones that are read are the
constants below. -/
structure SimpleAEC (α : Type) where
  echoGain : JSNum α

/-- `this.delaySamples = Math.floor((this.echoDelay / 1000) * this.sampleRate)`, with
`echoDelay = 100` and `sampleRate = 24000`. -/
def delaySamples : Nat := 100 * 24000 / 1000

/-- `this.noiseFloor`. -/
def noiseFloor : JSNum α := some (1 / 100)

/-- `this.targetErr`. -/
def targetErr : JSNum α := some (2 / 1000)

/-- `this.adaptRate`. -/
def adaptRate : JSNum α := some (1 / 10)

/-- The state the constructor builds: `echoGain = 0.5`. -/
def SimpleAEC.init : SimpleAEC α := ⟨some (1 / 2)⟩

/-- Body of the first loop of `process`: clamp to `[-0.98, 0.98]`, then `tanh(4 x)`. -/
def softLimit (M : MathFns α) (x : JSNum α) : JSNum α :=
  let c : JSNum α :=
    if jsGt x (some (98 / 100)) then some (98 / 100)
    else if jsLt x (some (-(98 / 100))) then some (-(98 / 100))
    else x
  jsTanh M (jsMul c (some 4))

/-- The values of `delay` for which the body of the outer loop of `findOptimalDelay`
runs: `for (delay = 0; delay < 5000 && delay < len; delay += 200)`. -/
def delayCandidates (len : Nat) : List Nat :=
  ((List.range 26).map (fun k => 200 * k)).takeWhile
    (fun delay => decide (delay < 5000) && decide (delay < len))

/-- Inner loop of `findOptimalDelay`: the pair `(corr, count)` after it. -/
def correlationAt (micData systemData : List (JSNum α)) (delay : Nat) : JSNum α × Nat :=
  (List.range (min 500 micData.length)).foldl
    (fun (acc : JSNum α × Nat) i =>
      if i + delay < systemData.length then
        (jsAdd acc.1 (jsMul (jsIndex micData (i : Int)) (jsIndex systemData ((i + delay : Nat) : Int))),
          acc.2 + 1)
      else acc)
    (some 0, 0)

/-- One pass of the outer loop of `findOptimalDelay` on the pair
`(maxCorr, optimalDelay)`. -/
def delayStep (micData systemData : List (JSNum α)) (best : JSNum α × Nat) (delay : Nat) :
    JSNum α × Nat :=
  let cc := correlationAt micData systemData delay
  if cc.2 > 0 then
    let corr := jsAbs (jsDiv cc.1 (some (cc.2 : α)))
    if jsGt corr best.1 then (corr, delay) else best
  else best

/-- `findOptimalDelay(micData, systemData)`. -/
def findOptimalDelay (micData systemData : List (JSNum α)) : Nat :=
  ((delayCandidates systemData.length).foldl (delayStep micData systemData)
    (some 0, delaySamples)).2

/-- The values of `i` in `for (i = -windowSize; i <= windowSize; i++)`, `windowSize = 50`. -/
def similarityWindow : List Int := (List.range (2 * 50 + 1)).map (fun k => -50 + (k : Int))

/-- `isSimilarToSystem(sample, systemData, index, delay)`. -/
def isSimilarToSystem (sample : JSNum α) (systemData : List (JSNum α)) (index delay : Nat) :
    Bool :=
  let similarity := similarityWindow.foldl
    (fun (acc : JSNum α) i =>
      let sysIndex : Int := (index : Int) - (delay : Int) + i
      if 0 ≤ sysIndex ∧ sysIndex < (systemData.length : Int) then
        jsAdd acc (jsAbs (jsSub sample (jsIndex systemData sysIndex)))
      else acc)
    (some 0)
  jsLt (jsDiv similarity (some (2 * 50 + 1))) (some (15 / 100))

/-- The values of `d` in `for (d = -500; d <= 500; d += 100)`. -/
def echoTaps : List Int := (List.range 11).map (fun k => -500 + 100 * (k : Int))

/-- The inner loop of `process` at output index `i`: the value of `echoEstimate`. -/
def echoEstimate (M : MathFns α) (systemData : List (JSNum α)) (scale echoGain : JSNum α)
    (optimalDelay i : Nat) : JSNum α :=
  echoTaps.foldl
    (fun (acc : JSNum α) d =>
      let delayIndex : Int := (i : Int) - (optimalDelay : Int) - d
      if 0 ≤ delayIndex ∧ delayIndex < (systemData.length : Int) then
        let weight := jsExp M (jsDiv (jsNeg (jsAbs (some (d : α)))) (some 1000))
        jsAdd acc (jsMul (jsMul (jsMul (jsIndex systemData delayIndex) scale) echoGain) weight)
      else acc)
    (some 0)

/-- The body of the main loop of `process` at index `i`: the final value of `output[i]`. -/
def outputSample (M : MathFns α) (micData systemData : List (JSNum α))
    (scale echoGain : JSNum α) (optimalDelay i : Nat) : JSNum α :=
  let o1 := jsSub (jsIndex micData (i : Int))
    (jsMul (echoEstimate M systemData scale echoGain optimalDelay i) (some (9 / 10)))
  let o2 := if jsLt (jsAbs o1) noiseFloor then jsMul o1 (some (1 / 2)) else o1
  let o3 := if isSimilarToSystem o2 systemData i optimalDelay then jsMul o2 (some (1 / 4)) else o2
  jsMax (some (-1)) (jsMin (some 1) o3)

/-- `scale = targetRms / (rms + 1e-6)` for the soft-limited reference, `targetRms = 0.08`. -/
def referenceScale (M : MathFns α) (systemData : List (JSNum α)) : JSNum α :=
  let sum2 := sumOfSquares systemData
  let rms := jsSqrt M (jsDiv sum2 (some (systemData.length : α)))
  jsDiv (some (8 / 100)) (jsAdd rms (some (1 / 1000000)))

/-- `SimpleAEC.process(micData, systemData)`: the returned frame and the state after the
call.  The reference `none` is an absent (`null`/`undefined`) argument. -/
def SimpleAEC.process (M : MathFns α) (self : SimpleAEC α) (micData : List (JSNum α))
    (systemData : Option (List (JSNum α))) : List (JSNum α) × SimpleAEC α :=
  match systemData with
  | none => (micData, self)
  | some sys0 =>
    if sys0.length = 0 then (micData, self)
    else
      let sys := sys0.map (softLimit M)
      let scale := referenceScale M sys
      let optimalDelay := findOptimalDelay micData sys
      let output := (List.range micData.length).map
        (outputSample M micData sys scale self.echoGain optimalDelay)
      let errSum := sumOfSquares output
      let errRms := jsSqrt M (jsDiv errSum (some (output.length : α)))
      let err := jsSub errRms targetErr
      let gain := jsAdd self.echoGain (jsMul adaptRate err)
      (output, ⟨jsMax (some 0) (jsMin (some 1) gain)⟩)

/-- A test signal: `p` zero samples, then the sample `a`, then `k` zero samples. -/
def impulse (p : Nat) (a : α) (k : Nat) : List α :=
  List.replicate p 0 ++ a :: List.replicate k 0

/-! ## Decoding the reference payload and the per-chunk microphone step -/

/-- `new Int16Array(bytes.buffer)` on an even number of bytes: little-endian pairs. -/
def int16Array : List Nat → List Int
  | lo :: hi :: rest =>
    (if lo + 256 * hi ≥ 32768 then ((lo + 256 * hi : Nat) : Int) - 65536
      else ((lo + 256 * hi : Nat) : Int)) :: int16Array rest
  | _ => []

/-- `base64ToFloat32Array(base64)`.  `atob` is the platform decoder, taken as a parameter:
it gives the bytes, or `none` when it throws.  `new Int16Array(buffer)` throws a
`RangeError` on an odd number of bytes; `none` is a thrown exception. -/
def base64ToFloat32Array (atob : String → Option (List Nat)) (base64 : String) :
    Option (List (JSNum α)) :=
  match atob base64 with
  | none => none
  | some bytes =>
    if bytes.length % 2 = 1 then none
    else some ((int16Array bytes).map (fun v => jsDiv (some (v : α)) (some 32768)))

/-- The per-chunk step of `setupMicProcessing` up to `processedChunk`: the processed chunk
and the state of `aecProcessor` after it, or `none` when the step throws. -/
def micChunkStep (M : MathFns α) (atob : String → Option (List Nat)) (aecProcessor : SimpleAEC α)
    (systemAudioBuffer : List ReferenceEntry) (chunk : List (JSNum α)) :
    Option (List (JSNum α) × SimpleAEC α) :=
  if systemAudioBuffer.length > 0 then
    match systemAudioBuffer.getLast? with
    | none => some (chunk, aecProcessor)
    | some latestSystemAudio =>
      match base64ToFloat32Array atob latestSystemAudio.data with
      | none => none
      | some systemFloat32 =>
        if isVoiceActive M (some systemFloat32) defaultThreshold then
          some (aecProcessor.process M chunk (some systemFloat32))
        else some (chunk, aecProcessor)
  else some (chunk, aecProcessor)

/-! ## Encoder -/

/-- Rounding toward zero. -/
def jsTrunc [FloorRing α] (v : α) : Int := if 0 ≤ v then ⌊v⌋ else ⌈v⌉

/-- Storing a number into an `Int16Array`: `NaN` becomes `0`, otherwise truncate toward
zero and wrap modulo `2^16` into `[-32768, 32767]`. -/
def toInt16 [FloorRing α] : JSNum α → Int
  | none => 0
  | some v => (jsTrunc v + 32768) % 65536 - 32768

/-- Body of the loop of `convertFloat32ToInt16` for one sample. -/
def convertSample [FloorRing α] (x : JSNum α) : Int :=
  let s := jsMax (some (-1)) (jsMin (some 1) x)
  toInt16 (if jsLt s (some 0) then jsMul s (some 32768) else jsMul s (some 32767))

/-- `convertFloat32ToInt16(float32Array)`. -/
def convertFloat32ToInt16 [FloorRing α] (float32Array : List (JSNum α)) : List Int :=
  float32Array.map convertSample

end Numbers

/-! ## Chunker -/

/-- `samplesPerChunk = SAMPLE_RATE * AUDIO_CHUNK_DURATION`, that is `24000 * 0.1`. -/
def samplesPerChunk : Nat := 24000 / 10

/-- The `audioBuffer` of a chunking loop and the chunks it has popped and handed to the
encoder and the sender, in the order of the calls. -/
structure Chunker (β : Type) where
  audioBuffer : List β
  emitted : List (List β)

/-- The loop `while (audioBuffer.length >= samplesPerChunk) { chunk = audioBuffer.splice(0,
samplesPerChunk); ...; await ipcRenderer.invoke('send-audio-content', ...) }` of
`setupLinuxMicProcessing`, which `setupWindowsLoopbackProcessing` repeats.  `resolves k`
says whether the request that sends chunk number `k` of the session (counted from 0)
resolves.  A rejected request throws out of the handler, which has no `try`: the chunk has
been popped and handed on, and the rest of the buffer stays for the next event.  Each event
is taken to be handled to its end before the next one arrives. -/
def Chunker.drain {β : Type} (resolves : Nat → Bool) (c : Chunker β) : Chunker β :=
  if samplesPerChunk ≤ c.audioBuffer.length then
    if resolves c.emitted.length then
      Chunker.drain resolves ⟨c.audioBuffer.drop samplesPerChunk,
        c.emitted ++ [c.audioBuffer.take samplesPerChunk]⟩
    else
      ⟨c.audioBuffer.drop samplesPerChunk, c.emitted ++ [c.audioBuffer.take samplesPerChunk]⟩
  else c
termination_by c.audioBuffer.length
decreasing_by
  simp only [List.length_drop]
  have : 0 < samplesPerChunk := by decide
  omega

/-- The `onaudioprocess` handler: `audioBuffer.push(...inputData)`, then the loop. -/
def Chunker.onaudioprocess {β : Type} (resolves : Nat → Bool) (c : Chunker β)
    (inputData : List β) : Chunker β :=
  Chunker.drain resolves ⟨c.audioBuffer ++ inputData, c.emitted⟩

/-- A sequence of `onaudioprocess` events, starting from an empty `audioBuffer`. -/
def Chunker.run {β : Type} (resolves : Nat → Bool) (blocks : List (List β)) : Chunker β :=
  blocks.foldl (Chunker.onaudioprocess resolves) ⟨[], []⟩

/-- What the chunking loop keeps true: every emitted chunk has `samplesPerChunk` samples. -/
def Chunker.FullChunks {β : Type} (c : Chunker β) : Prop :=
  c.emitted.map List.length = List.replicate c.emitted.length samplesPerChunk

/-! ## Stopping a capture session -/

/-- A `MediaStream`, by the ids of its tracks. -/
structure MediaStream where
  tracks : List Nat
  deriving DecidableEq, Repr

/-- The module-level session handles; `none` is `null`.  A handle that is set is truthy
(timer ids start at 1). -/
structure Session where
  screenshotInterval : Option Nat
  audioProcessor : Option Nat
  audioContext : Option Nat
  mediaStream : Option MediaStream
  micMediaStream : Option MediaStream
  deriving DecidableEq, Repr

/-- The requests `stopCapture` issues. -/
inductive Request where
  | clearInterval (id : Nat)
  | disconnect (processor : Nat)
  | close (context : Nat)
  | stopTrack (track : Nat)
  | invoke (channel : String)
  deriving DecidableEq, Repr

/-- `stopCapture()`: the handles after the call and the requests issued, in order. -/
def stopCapture (isMacOS : Bool) (s : Session) : Session × List Request :=
  let r1 := match s.screenshotInterval with
    | some id => [Request.clearInterval id]
    | none => []
  let r2 := match s.audioProcessor with
    | some p => [Request.disconnect p]
    | none => []
  let r3 := match s.audioContext with
    | some c => [Request.close c]
    | none => []
  let r4 := match s.mediaStream with
    | some m => m.tracks.map Request.stopTrack
    | none => []
  let r5 := match s.micMediaStream with
    | some m => m.tracks.map Request.stopTrack
    | none => []
  let r6 := [Request.invoke "stop-screen-capture"]
  let r7 := if isMacOS then [Request.invoke "stop-macos-audio"] else []
  (⟨none, none, none, none, none⟩, r1 ++ r2 ++ r3 ++ r4 ++ r5 ++ r6 ++ r7)

/-! ## Starting a capture session -/

/-- The host platform, which selects the branch of `startCapture` (`isMacOS`, `isLinux`,
otherwise Windows). -/
inductive Platform where
  | macOS
  | linux
  | windows
  deriving DecidableEq, Repr

/-- What the platform answers while `startCapture` runs: the `success` flags of the
`start-macos-audio` and `start-screen-capture` requests, the streams `getDisplayMedia` and
`getUserMedia` resolve to (`none`: the promise rejects), the ids of the `AudioContext` and
of the script processor that the setup function creates, whether
`screenshotIntervalSeconds` is `'manual'`/`'Manual'`, and the id `setInterval` returns. -/
structure StartEnv where
  macosAudioOk : Bool
  screenCaptureOk : Bool
  displayMedia : Option MediaStream
  userMedia : Option MediaStream
  newContext : Nat
  newProcessor : Nat
  manual : Bool
  newInterval : Nat
  deriving DecidableEq, Repr

/-- What `startCapture` acquires, in order. -/
inductive Acquired where
  | displayStream (m : MediaStream)
  | micStream (m : MediaStream)
  | context (id : Nat)
  | processor (id : Nat)
  | interval (id : Nat)
  deriving DecidableEq, Repr

/-- The end of `startCapture` after the platform branch: the screenshot timer, unless in
manual mode. -/
def startScreenshots (env : StartEnv) (s : Session) (acq : List Acquired) :
    Session × List Acquired :=
  if env.manual then (s, acq)
  else ({ s with screenshotInterval := some env.newInterval },
    acq ++ [Acquired.interval env.newInterval])

/-- `startCapture(...)`: the module-level handles after the call and what was acquired.
A `throw` inside the outer `try` ends the call in its `catch`, which sets no handle.  The
setup functions `setupMicProcessing` and `setupLinuxMicProcessing` keep their
`AudioContext` in a local constant and assign `audioProcessor`;
`setupWindowsLoopbackProcessing` assigns both `audioContext` and `audioProcessor`.  The
Linux branch declares `let micMediaStream = null` of its own, so the module-level
`micMediaStream` is not assigned there. -/
def startCapture (platform : Platform) (env : StartEnv) (s : Session) :
    Session × List Acquired :=
  match platform with
  | Platform.macOS =>
    if !env.macosAudioOk then (s, [])
    else if !env.screenCaptureOk then (s, [])
    else
      match env.userMedia with
      | some mic =>
        startScreenshots env
          { s with micMediaStream := some mic, audioProcessor := some env.newProcessor }
          [Acquired.micStream mic, Acquired.context env.newContext,
            Acquired.processor env.newProcessor]
      | none => startScreenshots env s []
  | Platform.linux =>
    match env.displayMedia with
    | none => (s, [])
    | some display =>
      match env.userMedia with
      | some mic =>
        startScreenshots env
          { s with mediaStream := some display, audioProcessor := some env.newProcessor }
          [Acquired.displayStream display, Acquired.micStream mic,
            Acquired.context env.newContext, Acquired.processor env.newProcessor]
      | none =>
        startScreenshots env { s with mediaStream := some display }
          [Acquired.displayStream display]
  | Platform.windows =>
    if !env.screenCaptureOk then (s, [])
    else
      match env.displayMedia with
      | none => (s, [])
      | some display =>
        startScreenshots env
          { s with mediaStream := some display, audioContext := some env.newContext,
                   audioProcessor := some env.newProcessor }
          [Acquired.displayStream display, Acquired.context env.newContext,
            Acquired.processor env.newProcessor]

/-- The request that releases an acquired handle: every track of a stream is stopped, a
context is closed, a processor disconnected, an interval cleared. -/
def Acquired.releases : Acquired → List Request
  | Acquired.displayStream m => m.tracks.map Request.stopTrack
  | Acquired.micStream m => m.tracks.map Request.stopTrack
  | Acquired.context id => [Request.close id]
  | Acquired.processor id => [Request.disconnect id]
  | Acquired.interval id => [Request.clearInterval id]

/-- Whether every release request of an acquired handle is among the requests issued. -/
def Acquired.releasedBy (a : Acquired) (requests : List Request) : Bool :=
  a.releases.all (fun r => requests.contains r)

/-! ## The renderer's module-level audio state and its events -/

section Pipeline

variable {α : Type} [LinearOrderedField α]

/-- The module-level state the audio pipeline shares: the session handles,
`systemAudioBuffer` and `aecProcessor`. -/
structure Renderer (α : Type) where
  session : Session
  systemAudioBuffer : List ReferenceEntry
  aecProcessor : SimpleAEC α

/-- The state when the module has been loaded: the handles are `null`,
`systemAudioBuffer = []` and `aecProcessor = new SimpleAEC()`. -/
def Renderer.init : Renderer α :=
  ⟨⟨none, none, none, none, none⟩, [], SimpleAEC.init⟩

/-- What can happen to the renderer: a `system-audio-data` message, a call of
`startCapture` or of `stopCapture`, a `session-state-changed` message, a microphone chunk
reaching the per-chunk step of `setupMicProcessing`. -/
inductive Event (α : Type) where
  | systemAudioData (e : ReferenceEntry)
  | startCapture (env : StartEnv)
  | stopCapture
  | sessionStateChanged (isActive : Bool)
  | micChunk (chunk : List (JSNum α))

/-- The effect of one event on the module-level state.  `startCapture` and `stopCapture`
assign the session handles only; the `session-state-changed` handler calls `stopCapture`
when the session ended and otherwise resets the conversation history and the structured
data, which are not part of this state. -/
def Renderer.step (M : MathFns α) (atob : String → Option (List Nat)) (platform : Platform)
    (r : Renderer α) : Event α → Renderer α
  | Event.systemAudioData e =>
    { r with systemAudioBuffer := onSystemAudioData r.systemAudioBuffer e }
  | Event.startCapture env => { r with session := (startCapture platform env r.session).1 }
  | Event.stopCapture =>
    { r with session := (stopCapture (decide (platform = Platform.macOS)) r.session).1 }
  | Event.sessionStateChanged isActive =>
    if isActive then r
    else { r with session := (stopCapture (decide (platform = Platform.macOS)) r.session).1 }
  | Event.micChunk chunk =>
    match micChunkStep M atob r.aecProcessor r.systemAudioBuffer chunk with
    | some (_, aec) => { r with aecProcessor := aec }
    | none => r

/-- The state after a history of events, from the freshly loaded module. -/
def Renderer.run (M : MathFns α) (atob : String → Option (List Nat)) (platform : Platform)
    (history : List (Event α)) : Renderer α :=
  history.foldl (Renderer.step M atob platform) Renderer.init

/-- The `audioBuffer` of `setupMicProcessing`, the processed chunks it has handed to the
encoder and the sender, in order, and the state of `aecProcessor`. -/
structure MicLoop (α : Type) where
  audioBuffer : List (JSNum α)
  sent : List (List (JSNum α))
  aecProcessor : SimpleAEC α

/-- The loop of the `onaudioprocess` handler of `setupMicProcessing`, with
`systemAudioBuffer` as it is while the handler runs: the state after the handler and
whether it ended by an exception.  An exception of the per-chunk step leaves the handler
(it has no `try`): the chunk has been popped and is not sent, and the rest of the buffer
stays for the next event.  The sends are taken to resolve. -/
def MicLoop.drain (M : MathFns α) (atob : String → Option (List Nat))
    (systemAudioBuffer : List ReferenceEntry) (c : MicLoop α) : MicLoop α × Bool :=
  if samplesPerChunk ≤ c.audioBuffer.length then
    match micChunkStep M atob c.aecProcessor systemAudioBuffer
        (c.audioBuffer.take samplesPerChunk) with
    | none => (⟨c.audioBuffer.drop samplesPerChunk, c.sent, c.aecProcessor⟩, true)
    | some (processedChunk, aec) =>
      MicLoop.drain M atob systemAudioBuffer
        ⟨c.audioBuffer.drop samplesPerChunk, c.sent ++ [processedChunk], aec⟩
  else (c, false)
termination_by c.audioBuffer.length
decreasing_by
  simp only [List.length_drop]
  have : 0 < samplesPerChunk := by decide
  omega

/-- The `onaudioprocess` handler of `setupMicProcessing`: push the block, then the loop. -/
def MicLoop.onaudioprocess (M : MathFns α) (atob : String → Option (List Nat))
    (systemAudioBuffer : List ReferenceEntry) (c : MicLoop α) (inputData : List (JSNum α)) :
    MicLoop α × Bool :=
  MicLoop.drain M atob systemAudioBuffer ⟨c.audioBuffer ++ inputData, c.sent, c.aecProcessor⟩

/-- A sequence of `onaudioprocess` events of `setupMicProcessing`, each given with
`systemAudioBuffer` as it is when the event is handled, starting from an empty
`audioBuffer` and the `aecProcessor` of the freshly loaded module. -/
def MicLoop.run (M : MathFns α) (atob : String → Option (List Nat))
    (events : List (List ReferenceEntry × List (JSNum α))) : MicLoop α :=
  events.foldl (fun c ev => (MicLoop.onaudioprocess M atob ev.1 c ev.2).1)
    ⟨[], [], SimpleAEC.init⟩

/-- What the loop of `setupMicProcessing` keeps true: every chunk sent has
`samplesPerChunk` samples. -/
def MicLoop.FullSent (c : MicLoop α) : Prop :=
  c.sent.map List.length = List.replicate c.sent.length samplesPerChunk

/-! ## Reference formulas of the echo canceller -/

/-- Soft limiter of the specification: clamp to `[-0.98, 0.98]`, then `tanh` with gain 4. -/
def softLimitSpec (M : MathFns α) (x : α) : α :=
  M.tanh (4 * max (-(98 / 100)) (min (98 / 100) x))

/-- Normalisation of the specification: `scale = 0.08 / (rms + 1e-6)`. -/
def scaleSpec (M : MathFns α) (r' : List α) : α :=
  8 / 100 / (rms M r' + 1 / 1000000)

/-- The taps `d` of `-500, -400, ..., 500` whose position `i - D - d` is inside a
reference of length `len`. -/
def tapsInRange (len D i : Nat) : List Int :=
  echoTaps.filter (fun d => decide (0 ≤ (i : Int) - (D : Int) - d)
    && decide ((i : Int) - (D : Int) - d < (len : Int)))

/-- Echo estimate of the specification at output index `i`: the sum over the taps in
range of `r'[i - D - d] * scale * g * exp(-|d| / 1000)`. -/
def echoSpec (M : MathFns α) (r' : List α) (scale g : α) (D i : Nat) : α :=
  ((tapsInRange r'.length D i).map
    (fun d => r'.getD ((i : Int) - (D : Int) - d).toNat 0 * scale * g
      * M.exp (-|(d : α)| / 1000))).sum

/-- The candidate `c = m[i] - 0.9 * echo` of the specification, for the microphone frame
`m`, the raw reference `r` and the gain `g`. -/
def candidateSpec (M : MathFns α) (m r : List α) (g : α) (i : Nat) : α :=
  m.getD i 0 - 9 / 10 * echoSpec M (r.map (softLimitSpec M)) (scaleSpec M (r.map (softLimitSpec M)))
    g (findOptimalDelay (m.map some) ((r.map (softLimitSpec M)).map some)) i

/-- The noise-floor step: `h = c / 2` if `|c| < 0.01`, else `c`. -/
def noiseFloorSpec (c : α) : α := if |c| < 1 / 100 then c / 2 else c

/-- The output sample of the specification: `clamp(q, -1, 1)` with `q = h / 4` when `h`
is judged similar to the reference and `q = h` otherwise. -/
def outputSpec (M : MathFns α) (m r : List α) (g : α) (i : Nat) : α :=
  max (-1) (min 1
    (if isSimilarToSystem (some (noiseFloorSpec (candidateSpec M m r g i)))
        ((r.map (softLimitSpec M)).map some) i
        (findOptimalDelay (m.map some) ((r.map (softLimitSpec M)).map some))
      then noiseFloorSpec (candidateSpec M m r g i) / 4
      else noiseFloorSpec (candidateSpec M m r g i)))

/-- The microphone indices that `findOptimalDelay` correlates at the offset `d`: those
below `min(500, micLen)` with `i + d` inside the reference. -/
def corrIndices (micLen refLen d : Nat) : List Nat :=
  (List.range (min 500 micLen)).filter (fun i => decide (i + d < refLen))

/-- Absolute mean correlation of the first `min(500, len)` microphone samples against the
reference at the offset `d`. -/
def absMeanCorr (mic ref : List α) (d : Nat) : α :=
  |((corrIndices mic.length ref.length d).map
      (fun i => mic.getD i 0 * ref.getD (i + d) 0)).sum
    / ((corrIndices mic.length ref.length d).length : α)|

/-- The positions of the window `index - delay - 50 .. index - delay + 50` that lie inside
a reference of length `len`. -/
def windowPositions (len index delay : Nat) : List Int :=
  (similarityWindow.map (fun i => (index : Int) - (delay : Int) + i)).filter
    (fun j => decide (0 ≤ j) && decide (j < (len : Int)))

/-- The sum of `|s - reference[j]|` over the window positions inside the reference. -/
def sumAbsDiff (s : α) (reference : List α) (index delay : Nat) : α :=
  ((windowPositions reference.length index delay).map
    (fun j => |s - reference.getD j.toNat 0|)).sum

end Pipeline

/-! ## The conversations router -/

/-- HTTP methods the router registers. -/
inductive Method where
  | GET
  | POST
  | DELETE
  deriving DecidableEq, Repr

/-- A segment of a route path: a literal or a named parameter (`:name`). -/
inductive Seg where
  | lit (s : String)
  | param (name : String)
  deriving DecidableEq, Repr

/-- The handlers of `routes/conversations.js`. -/
inductive Handler where
  | listSessions
  | createSession
  | sessionDetail
  | deleteSession
  | search
  deriving DecidableEq, Repr

/-- A registered route. -/
structure Route where
  method : Method
  pattern : List Seg
  handler : Handler
  deriving DecidableEq, Repr

/-- The routes in the order `routes/conversations.js` registers them. -/
def conversationsRoutes : List Route :=
  [ ⟨Method.GET, [], Handler.listSessions⟩,
    ⟨Method.POST, [], Handler.createSession⟩,
    ⟨Method.GET, [Seg.param "session_id"], Handler.sessionDetail⟩,
    ⟨Method.DELETE, [Seg.param "session_id"], Handler.deleteSession⟩,
    ⟨Method.GET, [Seg.lit "search"], Handler.search⟩ ]

/-- Matching a route path against the segments of a request path: a literal matches
itself, a parameter matches any one segment and is bound to it. -/
def matchPath : List Seg → List String → Option (List (String × String))
  | [], [] => some []
  | Seg.lit s :: ps, x :: xs => if s = x then matchPath ps xs else none
  | Seg.param n :: ps, x :: xs => (matchPath ps xs).map (fun b => (n, x) :: b)
  | _, _ => none

/-- First-match dispatch in registration order: the handler of the first route whose
method and path match, with the parameters bound.  (No handler of this router passes the
request on with `next()`.) -/
def dispatch : List Route → Method → List String → Option (Handler × List (String × String))
  | [], _, _ => none
  | r :: rs, m, path =>
    if r.method = m then
      match matchPath r.pattern path with
      | some params => some (r.handler, params)
      | none => dispatch rs m path
    else dispatch rs m path

/-- The database as the session-detail handler uses it; `none` is a thrown exception,
`some none` a query without a row. -/
structure Db where
  sessionById : String → Option (Option String)
  transcripts : String → Option (List String)
  aiMessages : String → Option (List String)
  summary : String → Option (Option String)

/-- A response: the status code and the `error` text of its JSON body, if it has one. -/
structure Response where
  status : Nat
  error : Option String
  deriving DecidableEq, Repr

/-- The handler of `GET /:session_id`. -/
def sessionDetail (db : Db) (session_id : String) : Response :=
  match db.sessionById session_id with
  | none => ⟨500, some "Failed to retrieve session details"⟩
  | some none => ⟨404, some "Session not found"⟩
  | some (some _) =>
    match db.transcripts session_id, db.aiMessages session_id, db.summary session_id with
    | some _, some _, some _ => ⟨200, none⟩
    | _, _, _ => ⟨500, some "Failed to retrieve session details"⟩

/-! ## Reference audio buffer: proofs -/

theorem sliceLast_length {β : Type} (n : Nat) (xs : List β) :
    (sliceLast n xs).length = min xs.length n := by
  simp only [sliceLast, List.length_drop]
  omega

theorem sliceLast_append_sliceLast {β : Type} (n : Nat) (xs ys : List β) :
    sliceLast n (sliceLast n xs ++ ys) = sliceLast n (xs ++ ys) := by
  by_cases h : xs.length ≤ n
  · have h0 : xs.length - n = 0 := by omega
    simp [sliceLast, h0]
  · have hk : xs.length - n ≤ xs.length := by omega
    have hlen : (List.drop (xs.length - n) xs).length = n := by
      simp only [List.length_drop]; omega
    have hsplit : xs ++ ys = List.take (xs.length - n) xs ++ (List.drop (xs.length - n) xs ++ ys) := by
      rw [← List.append_assoc, List.take_append_drop]
    have htake : (List.take (xs.length - n) xs).length = xs.length - n := by
      simp only [List.length_take]; omega
    unfold sliceLast
    rw [List.length_append, hlen]
    conv_rhs => rw [hsplit]
    have e1 : (List.take (xs.length - n) xs ++ (List.drop (xs.length - n) xs ++ ys)).length - n
        = (List.take (xs.length - n) xs).length + (n + ys.length - n) := by
      simp only [List.length_append, hlen, htake]; omega
    rw [e1, List.drop_append]

theorem onSystemAudioData_eq (buf : List ReferenceEntry) (e : ReferenceEntry) :
    onSystemAudioData buf e = sliceLast MAX_SYSTEM_BUFFER_SIZE (buf ++ [e]) := by
  unfold onSystemAudioData
  by_cases h : (buf ++ [e]).length > MAX_SYSTEM_BUFFER_SIZE
  · simp only [h, if_true]
  · have h0 : (buf ++ [e]).length - MAX_SYSTEM_BUFFER_SIZE = 0 := by omega
    simp only [h, if_false, sliceLast, h0, List.drop_zero]

theorem arrivals_eq (buf es : List ReferenceEntry) :
    arrivals (sliceLast MAX_SYSTEM_BUFFER_SIZE buf) es
      = sliceLast MAX_SYSTEM_BUFFER_SIZE (buf ++ es) := by
  induction es generalizing buf with
  | nil => simp [arrivals]
  | cons e es ih =>
    have := ih (buf ++ [e])
    simp only [arrivals, List.foldl_cons] at this ⊢
    rw [onSystemAudioData_eq, sliceLast_append_sliceLast, this]
    simp

theorem arrivals_nil_eq (es : List ReferenceEntry) :
    arrivals [] es = sliceLast MAX_SYSTEM_BUFFER_SIZE es := by
  have := arrivals_eq [] es
  simpa [sliceLast] using this

/-- C3: starting from an empty `systemAudioBuffer`, after every prefix of the arrivals the
buffer has at most 10 entries; after all `n` arrivals it holds exactly the last
`min n 10` of them in arrival order, and its last entry is the latest arrival. -/
theorem C3_reference_buffer_last_ten (es : List ReferenceEntry) :
    (∀ k, (arrivals [] (es.take k)).length ≤ 10)
    ∧ arrivals [] es = es.drop (es.length - 10)
    ∧ (arrivals [] es).length = min es.length 10
    ∧ (arrivals [] es).getLast? = es.getLast? := by
  refine ⟨fun k => ?_, ?_, ?_, ?_⟩
  · rw [arrivals_nil_eq, sliceLast_length]
    exact Nat.min_le_right _ _
  · rw [arrivals_nil_eq]; rfl
  · rw [arrivals_nil_eq, sliceLast_length]; rfl
  · rw [arrivals_nil_eq]
    unfold sliceLast MAX_SYSTEM_BUFFER_SIZE
    rcases List.eq_nil_or_concat es with h | ⟨l, a, h⟩
    · subst h; rfl
    · subst h
      rw [List.concat_eq_append]
      have : (l ++ [a]).length - 10 ≤ l.length := by simp
      rw [List.drop_append_of_le_length this]
      simp

/-! ## Encoder: proofs -/

section Encoder

variable {α : Type} [LinearOrderedField α] [FloorRing α]

theorem jsTrunc_scaled_range (s : α) (h1 : -1 ≤ s) (h2 : s ≤ 1) :
    -32768 ≤ (if s < 0 then jsTrunc (s * 32768) else jsTrunc (s * 32767))
    ∧ (if s < 0 then jsTrunc (s * 32768) else jsTrunc (s * 32767)) ≤ 32767 := by
  by_cases hs : s < 0
  · have hneg : ¬ (0 ≤ s * 32768) := by
      have : s * 32768 < 0 := by nlinarith
      exact not_le.mpr this
    simp only [hs, if_true, jsTrunc, hneg, if_false]
    constructor
    · have : ((-32768 : Int) : α) ≤ s * 32768 := by push_cast; nlinarith
      exact Int.le_ceil_iff.mpr (by push_cast; nlinarith)
    · have : s * 32768 ≤ ((32767 : Int) : α) := by push_cast; nlinarith
      exact Int.ceil_le.mpr this
  · have hs0 : 0 ≤ s := not_lt.mp hs
    have hpos : 0 ≤ s * 32767 := by nlinarith
    simp only [hs, if_false, jsTrunc, hpos, if_true]
    constructor
    · have : ((-32768 : Int) : α) ≤ s * 32767 := by push_cast; nlinarith
      exact Int.le_floor.mpr this
    · have : s * 32767 < ((32767 : Int) : α) + 1 := by push_cast; nlinarith
      exact Int.floor_le_iff.mpr this

theorem convertSample_some (x : α) :
    convertSample (some x)
      = (if max (-1) (min 1 x) < 0 then jsTrunc (max (-1) (min 1 x) * 32768)
          else jsTrunc (max (-1) (min 1 x) * 32767)) := by
  have h1 : (-1 : α) ≤ max (-1) (min 1 x) := le_max_left _ _
  have h2 : max (-1) (min 1 x) ≤ (1 : α) := max_le (by norm_num) (min_le_left _ _)
  obtain ⟨ha, hb⟩ := jsTrunc_scaled_range (max (-1) (min 1 x)) h1 h2
  unfold convertSample
  simp only [jsMin, jsMax, jsLt]
  by_cases hs : max (-1) (min 1 x) < 0
  · simp only [hs, decide_True, if_true, jsMul, toInt16] at ha hb ⊢
    omega
  · simp only [hs, decide_False, if_false, jsMul, toInt16] at ha hb ⊢
    have : (false = true) = False := by simp
    simp only [this, if_false]
    omega

/-- C6: `convertFloat32ToInt16` maps a sample `x` to `trunc(s * 32768)` when `s < 0` and
to `trunc(s * 32767)` otherwise, `s` being `x` clamped to `[-1, 1]`; the result lies in
`[-32768, 32767]`; `0.5`, `-1` and `1` map to `16383`, `-32768` and `32767`; every `x`
above `1` maps to `32767`, every `x` below `-1` to `-32768`.  (A `NaN` sample is stored
as `0`.) -/
theorem C6_convert_sample_law (x : α) :
    convertSample (some x)
      = (if max (-1) (min 1 x) < 0 then jsTrunc (max (-1) (min 1 x) * 32768)
          else jsTrunc (max (-1) (min 1 x) * 32767))
    ∧ -32768 ≤ convertSample (some x) ∧ convertSample (some x) ≤ 32767
    ∧ convertSample (some (1 / 2 : α)) = 16383
    ∧ convertSample (some (-1 : α)) = -32768
    ∧ convertSample (some (1 : α)) = 32767
    ∧ (1 < x → convertSample (some x) = 32767)
    ∧ (x < -1 → convertSample (some x) = -32768)
    ∧ convertSample (none : JSNum α) = 0
    ∧ (∀ xs : List (JSNum α),
        (convertFloat32ToInt16 xs).length = xs.length
        ∧ ∀ v ∈ convertFloat32ToInt16 xs, -32768 ≤ v ∧ v ≤ 32767) := by
  have hone : convertSample (some (1 : α)) = 32767 := by
    rw [convertSample_some]
    have e : max (-1 : α) (min 1 1) = 1 := by norm_num
    rw [e]
    have : ¬ ((1 : α) < 0) := by norm_num
    simp only [this, if_false, jsTrunc]
    have h0 : (0 : α) ≤ 1 * 32767 := by norm_num
    simp only [h0, if_true]
    rw [Int.floor_eq_iff]; constructor <;> push_cast <;> norm_num
  have hmone : convertSample (some (-1 : α)) = -32768 := by
    rw [convertSample_some]
    have e : max (-1 : α) (min 1 (-1)) = -1 := by norm_num
    rw [e]
    have : ((-1 : α) < 0) := by norm_num
    simp only [this, if_true, jsTrunc]
    have h0 : ¬ ((0 : α) ≤ -1 * 32768) := by norm_num
    simp only [h0, if_false]
    rw [Int.ceil_eq_iff]; constructor <;> push_cast <;> norm_num
  have hrange : ∀ y : α, -32768 ≤ convertSample (some y) ∧ convertSample (some y) ≤ 32767 := by
    intro y
    rw [convertSample_some]
    exact jsTrunc_scaled_range _ (le_max_left _ _) (max_le (by norm_num) (min_le_left _ _))
  have hnan : convertSample (none : JSNum α) = 0 := by
    simp [convertSample, jsMin, jsMax, jsLt, jsMul, toInt16]
  refine ⟨convertSample_some x, (hrange x).1, (hrange x).2, ?_, hmone, hone, ?_, ?_, hnan, ?_⟩
  · rw [convertSample_some]
    have e : max (-1 : α) (min 1 (1 / 2)) = 1 / 2 := by
      rw [min_eq_right (by norm_num), max_eq_right (by norm_num)]
    rw [e]
    have : ¬ ((1 / 2 : α) < 0) := by norm_num
    simp only [this, if_false, jsTrunc]
    have h0 : (0 : α) ≤ 1 / 2 * 32767 := by norm_num
    simp only [h0, if_true]
    rw [Int.floor_eq_iff]; constructor <;> push_cast <;> norm_num
  · intro hx
    have e : max (-1 : α) (min 1 x) = max (-1) (min 1 1) := by
      rw [min_eq_left hx.le, min_self]
    rw [convertSample_some, e, ← convertSample_some, hone]
  · intro hx
    have e : max (-1 : α) (min 1 x) = max (-1) (min 1 (-1)) := by
      rw [min_eq_right (by linarith), max_eq_left hx.le, min_eq_right (by norm_num), max_self]
    rw [convertSample_some, e, ← convertSample_some, hmone]
  · intro xs
    refine ⟨by simp [convertFloat32ToInt16], ?_⟩
    intro v hv
    simp only [convertFloat32ToInt16, List.mem_map] at hv
    obtain ⟨y, _, rfl⟩ := hv
    cases y with
    | none => rw [hnan]; constructor <;> norm_num
    | some y => exact hrange y

end Encoder

/-! ## Stopping a capture session: proofs -/

/-- C10 as stated fails: a second `stopCapture` is not a no-op, it sends the
`stop-screen-capture` request again. -/
theorem C10_second_stop_still_requests :
    (stopCapture false (stopCapture false ⟨some 1, some 2, some 3, some ⟨[4]⟩, some ⟨[5]⟩⟩).1).2
      = [Request.invoke "stop-screen-capture"]
    ∧ (stopCapture false (stopCapture false ⟨some 1, some 2, some 3, some ⟨[4]⟩, some ⟨[5]⟩⟩).1).2
      ≠ [] := by
  constructor
  · rfl
  · decide

/-- C10, amended: a second `stopCapture` after a first one leaves every session handle
`null`, as the first call did, and touches no handle (no `clearInterval`, `disconnect`,
`close` or track `stop`); it does send the `stop-screen-capture` request again, and on
macOS the `stop-macos-audio` request. -/
theorem C10_stop_twice (isMacOS : Bool) (s : Session) :
    (stopCapture isMacOS s).1 = ⟨none, none, none, none, none⟩
    ∧ (stopCapture isMacOS (stopCapture isMacOS s).1).1 = (stopCapture isMacOS s).1
    ∧ (stopCapture isMacOS (stopCapture isMacOS s).1).2
      = Request.invoke "stop-screen-capture"
          :: (if isMacOS then [Request.invoke "stop-macos-audio"] else []) := by
  refine ⟨rfl, rfl, ?_⟩
  cases isMacOS <;> rfl

/-! ## Sums of squares and the voice activity detector: proofs -/

section Numbers

variable {α : Type} [LinearOrderedField α]

@[simp] theorem jsAdd_some (a b : α) : jsAdd (some a) (some b) = some (a + b) := rfl

@[simp] theorem jsAdd_none_left (b : JSNum α) : jsAdd none b = none := rfl

@[simp] theorem jsAdd_none_right (a : JSNum α) : jsAdd a none = none := by
  cases a <;> rfl

@[simp] theorem jsSub_some (a b : α) : jsSub (some a) (some b) = some (a - b) := rfl

@[simp] theorem jsSub_none_left (b : JSNum α) : jsSub none b = none := rfl

@[simp] theorem jsSub_none_right (a : JSNum α) : jsSub a none = none := by
  cases a <;> rfl

@[simp] theorem jsMul_some (a b : α) : jsMul (some a) (some b) = some (a * b) := rfl

@[simp] theorem jsMul_none_left (b : JSNum α) : jsMul none b = none := rfl

@[simp] theorem jsMul_none_right (a : JSNum α) : jsMul a none = none := by
  cases a <;> rfl

theorem jsDiv_some (a b : α) (h : b ≠ 0) : jsDiv (some a) (some b) = some (a / b) := by
  simp [jsDiv, h]

@[simp] theorem jsDiv_zero (a : JSNum α) : jsDiv a (some 0) = none := by
  cases a <;> simp [jsDiv]

@[simp] theorem jsDiv_none_left (b : JSNum α) : jsDiv none b = none := rfl

@[simp] theorem jsNeg_some (a : α) : jsNeg (some a) = some (-a) := rfl

@[simp] theorem jsAbs_some (a : α) : jsAbs (some a) = some |a| := rfl

@[simp] theorem jsAbs_none : jsAbs (none : JSNum α) = none := rfl

@[simp] theorem jsLt_some (a b : α) : jsLt (some a) (some b) = decide (a < b) := rfl

@[simp] theorem jsLt_none_left (b : JSNum α) : jsLt none b = false := rfl

@[simp] theorem jsLt_none_right (a : JSNum α) : jsLt a none = false := by
  cases a <;> rfl

@[simp] theorem jsGt_some (a b : α) : jsGt (some a) (some b) = decide (b < a) := rfl

@[simp] theorem jsGt_none_left (b : JSNum α) : jsGt none b = false := by
  cases b <;> rfl

@[simp] theorem jsGt_none_right (a : JSNum α) : jsGt a none = false := rfl

@[simp] theorem jsMax_some (a b : α) : jsMax (some a) (some b) = some (max a b) := rfl

@[simp] theorem jsMax_none_right (a : JSNum α) : jsMax a none = none := by
  cases a <;> rfl

@[simp] theorem jsMin_some (a b : α) : jsMin (some a) (some b) = some (min a b) := rfl

@[simp] theorem jsMin_none_right (a : JSNum α) : jsMin a none = none := by
  cases a <;> rfl

theorem jsSqrt_some (M : MathFns α) (a : α) (h : 0 ≤ a) :
    jsSqrt M (some a) = some (M.sqrt a) := by
  simp [jsSqrt, not_lt.mpr h]

@[simp] theorem jsSqrt_none (M : MathFns α) : jsSqrt M none = none := rfl

theorem sumOfSquares_foldl_some (vs : List α) (a : α) :
    (vs.map some).foldl (fun (acc : JSNum α) x => jsAdd acc (jsMul x x)) (some a)
      = some (a + (vs.map (fun v => v * v)).sum) := by
  induction vs generalizing a with
  | nil => simp
  | cons v vs ih =>
    simp only [List.map_cons, List.foldl_cons, jsMul_some, jsAdd_some, List.sum_cons]
    rw [ih]
    congr 1
    ring

theorem sumOfSquares_map_some (vs : List α) :
    sumOfSquares (vs.map some) = some ((vs.map (fun v => v * v)).sum) := by
  unfold sumOfSquares
  rw [sumOfSquares_foldl_some]
  simp

theorem sumOfSquares_foldl_none (xs : List (JSNum α)) :
    xs.foldl (fun (acc : JSNum α) x => jsAdd acc (jsMul x x)) none = none := by
  induction xs with
  | nil => rfl
  | cons x xs ih => simpa using ih

theorem sumOfSquares_of_nan (xs : List (JSNum α)) (h : none ∈ xs) :
    sumOfSquares xs = none := by
  unfold sumOfSquares
  generalize (some 0 : JSNum α) = a
  induction xs generalizing a with
  | nil => simp at h
  | cons x xs ih =>
    simp only [List.foldl_cons]
    rcases List.mem_cons.mp h with hx | hx
    · subst hx
      simp only [jsMul_none_left, jsAdd_none_right]
      exact sumOfSquares_foldl_none xs
    · exact ih hx _

theorem sum_squares_nonneg (vs : List α) : 0 ≤ (vs.map (fun v => v * v)).sum := by
  apply List.sum_nonneg
  intro x hx
  simp only [List.mem_map] at hx
  obtain ⟨v, _, rfl⟩ := hx
  exact mul_self_nonneg v

theorem mean_squares_nonneg (vs : List α) :
    0 ≤ (vs.map (fun v => v * v)).sum / (vs.length : α) :=
  div_nonneg (sum_squares_nonneg vs) (Nat.cast_nonneg _)

/-- The root mean square the code computes for a non-empty frame of finite samples. -/
theorem rms_map_some (M : MathFns α) (vs : List α) (h : vs ≠ []) :
    jsSqrt M (jsDiv (sumOfSquares (vs.map some)) (some (((vs.map some).length : Nat) : α)))
      = some (M.sqrt ((vs.map (fun v => v * v)).sum / (vs.length : α))) := by
  have hlen : ((vs.length : Nat) : α) ≠ 0 := by
    have : vs.length ≠ 0 := by simpa using h
    exact_mod_cast this
  rw [sumOfSquares_map_some, List.length_map, jsDiv_some _ _ hlen,
    jsSqrt_some _ _ (mean_squares_nonneg vs)]

theorem isVoiceActive_map_some (M : MathFns α) (vs : List α) (τ : α) :
    isVoiceActive M (some (vs.map some)) (some τ) = true
      ↔ vs ≠ [] ∧ τ < M.sqrt ((vs.map (fun v => v * v)).sum / (vs.length : α)) := by
  unfold isVoiceActive
  by_cases h : vs = []
  · subst h; simp
  · have hlen : ¬ ((vs.map some).length = 0) := by simpa using h
    simp only [hlen, if_false]
    rw [rms_map_some M vs h]
    simp [h]

/-- C4: on a frame of finite samples `isVoiceActive` is true exactly when the frame is
non-empty and `sqrt(mean of squares) > threshold`; it is false on the absent and on the
empty frame, on every all-zero frame with a non-negative threshold (given
`Math.sqrt(0) = 0`), and on a frame whose RMS equals the threshold; a `NaN` sample or a
`NaN` threshold also gives false. -/
theorem C4_vad_rms_threshold (M : MathFns α) (hsqrt : M.sqrt 0 = 0) (vs : List α) (τ : α)
    (t : JSNum α) (n : Nat) :
    (isVoiceActive M (some (vs.map some)) (some τ) = true
      ↔ vs ≠ [] ∧ τ < M.sqrt ((vs.map (fun v => v * v)).sum / (vs.length : α)))
    ∧ isVoiceActive M (some []) t = false
    ∧ isVoiceActive M none t = false
    ∧ (0 ≤ τ → isVoiceActive M (some (List.replicate n (some 0))) (some τ) = false)
    ∧ (M.sqrt ((vs.map (fun v => v * v)).sum / (vs.length : α)) = τ →
        isVoiceActive M (some (vs.map some)) (some τ) = false)
    ∧ (∀ xs : List (JSNum α), none ∈ xs → isVoiceActive M (some xs) t = false)
    ∧ isVoiceActive M (some (vs.map some)) none = false := by
  refine ⟨isVoiceActive_map_some M vs τ, rfl, rfl, ?_, ?_, ?_, ?_⟩
  · intro hτ
    have e : List.replicate n (some (0 : α)) = (List.replicate n (0 : α)).map some := by simp
    rw [e, Bool.eq_false_iff]
    intro hact
    obtain ⟨_, hlt⟩ := (isVoiceActive_map_some M _ τ).mp hact
    have hz : ((List.replicate n (0 : α)).map (fun v => v * v)).sum = 0 := by simp
    rw [hz, zero_div, hsqrt] at hlt
    exact absurd hlt (not_lt.mpr hτ)
  · intro heq
    rw [Bool.eq_false_iff]
    intro hact
    obtain ⟨_, hlt⟩ := (isVoiceActive_map_some M vs τ).mp hact
    rw [heq] at hlt
    exact lt_irrefl _ hlt
  · intro xs hx
    unfold isVoiceActive
    by_cases h : xs.length = 0
    · simp [h]
    · simp [h, sumOfSquares_of_nan xs hx]
  · unfold isVoiceActive
    by_cases h : (vs.map some).length = 0
    · simp [h]
    · simp only [h, if_false, jsGt_none_right]

/-- C4 at the real `sqrt`: a frame with samples `3/5` and `4/5` against threshold `1/2`. -/
theorem C4_vad_rms_threshold_witness :
    Real.sqrt 0 = 0
    ∧ (isVoiceActive (MathFns.mk Real.sqrt Real.tanh Real.exp)
          (some ([3 / 5, 4 / 5].map some)) (some (1 / 2)) = true
        ↔ ([3 / 5, 4 / 5] : List ℝ) ≠ []
          ∧ 1 / 2 < Real.sqrt ((([3 / 5, 4 / 5] : List ℝ).map (fun v => v * v)).sum
              / (([3 / 5, 4 / 5] : List ℝ).length : ℝ))) :=
  ⟨Real.sqrt_zero,
    (C4_vad_rms_threshold (MathFns.mk Real.sqrt Real.tanh Real.exp) Real.sqrt_zero
      [3 / 5, 4 / 5] (1 / 2) none 0).1⟩

end Numbers

/-! ## Echo canceller: pass-through -/

section Passthrough

variable {α : Type} [LinearOrderedField α]

theorem process_absent (M : MathFns α) (st : SimpleAEC α) (mic : List (JSNum α)) :
    st.process M mic none = (mic, st) := rfl

theorem process_empty (M : MathFns α) (st : SimpleAEC α) (mic : List (JSNum α)) :
    st.process M mic (some []) = (mic, st) := rfl

/-- C2: with an absent or empty reference `process` returns the microphone frame and
leaves `echoGain` as it was; when the reference buffer is empty, or its latest entry
decodes to a frame on which `isVoiceActive` is false, the per-chunk step of
`setupMicProcessing` leaves the chunk and `echoGain` as they were. -/
theorem C2_identity_without_active_reference (M : MathFns α)
    (atob : String → Option (List Nat)) (st : SimpleAEC α) (mic chunk : List (JSNum α))
    (buf : List ReferenceEntry)
    (h : buf = [] ∨ ∃ e f, buf.getLast? = some e
        ∧ base64ToFloat32Array atob e.data = some f
        ∧ isVoiceActive M (some f) defaultThreshold = false) :
    st.process M mic none = (mic, st)
    ∧ st.process M mic (some []) = (mic, st)
    ∧ micChunkStep M atob st buf chunk = some (chunk, st) := by
  refine ⟨rfl, rfl, ?_⟩
  rcases h with h | ⟨e, f, he, hf, hv⟩
  · subst h; rfl
  · unfold micChunkStep
    have hne : buf.length > 0 := by
      cases buf with
      | nil => simp at he
      | cons b bs => simp
    simp only [hne, if_true, he, hf, hv]
    rfl

/-- C2 at a concrete input: a buffer whose latest payload decodes to six zero bytes,
that is three silent samples, with the real `sqrt`. -/
theorem C2_identity_without_active_reference_witness :
    (([⟨"AAAAAAAA", 7⟩] : List ReferenceEntry) = []
      ∨ ∃ e f, ([⟨"AAAAAAAA", 7⟩] : List ReferenceEntry).getLast? = some e
        ∧ base64ToFloat32Array (fun _ => some [0, 0, 0, 0, 0, 0]) e.data = some f
        ∧ isVoiceActive (MathFns.mk Real.sqrt Real.tanh Real.exp) (some f) defaultThreshold
            = false)
    ∧ micChunkStep (MathFns.mk Real.sqrt Real.tanh Real.exp)
        (fun _ => some [0, 0, 0, 0, 0, 0]) ⟨some (1 / 2)⟩ [⟨"AAAAAAAA", 7⟩]
        [some (1 / 4), some (-3 / 4)]
      = some ([some (1 / 4), some (-3 / 4)], ⟨some (1 / 2)⟩) := by
  have h : (([⟨"AAAAAAAA", 7⟩] : List ReferenceEntry) = []
      ∨ ∃ e f, ([⟨"AAAAAAAA", 7⟩] : List ReferenceEntry).getLast? = some e
        ∧ base64ToFloat32Array (fun _ => some [0, 0, 0, 0, 0, 0]) e.data = some f
        ∧ isVoiceActive (MathFns.mk Real.sqrt Real.tanh Real.exp) (some f) defaultThreshold
            = false) := by
    right
    refine ⟨⟨"AAAAAAAA", 7⟩, [some 0, some 0, some 0], rfl, ?_, ?_⟩
    · simp [base64ToFloat32Array, int16Array, jsDiv]
    · have e : ([some 0, some 0, some 0] : List (JSNum ℝ)) = ([0, 0, 0] : List ℝ).map some := rfl
      rw [e, defaultThreshold, Bool.eq_false_iff]
      intro hact
      have := ((isVoiceActive_map_some _ _ _).mp hact).2
      norm_num at this
  exact ⟨h, (C2_identity_without_active_reference _ _ ⟨some (1 / 2)⟩ [] _ _ h).2.2⟩

end Passthrough

/-! ## Echo canceller: finite inputs give finite, clamped outputs -/

section Process

variable {α : Type} [LinearOrderedField α]

omit [LinearOrderedField α] in
theorem jsIndex_map_some (vs : List α) (k : Int) (h0 : 0 ≤ k) (h1 : k < (vs.length : Int)) :
    ∃ v, jsIndex (vs.map some) k = some v := by
  have hk : k.toNat < vs.length := by omega
  refine ⟨vs[k.toNat], ?_⟩
  unfold jsIndex
  rw [if_neg (not_lt.mpr h0), List.getD_eq_getElem _ _ (by simpa using hk)]
  simp

omit [LinearOrderedField α] in
theorem jsIndex_natCast_map_some (vs : List α) (i : Nat) (h : i < vs.length) :
    ∃ v, jsIndex (vs.map some) (i : Int) = some v :=
  jsIndex_map_some vs i (by omega) (by omega)

theorem softLimit_some (M : MathFns α) (a : α) : ∃ b, softLimit M (some a) = some b := by
  unfold softLimit
  simp only [jsGt_some, jsLt_some]
  split_ifs <;> exact ⟨_, rfl⟩

theorem map_softLimit_some (M : MathFns α) (vs : List α) :
    ∃ ws : List α, (vs.map some).map (softLimit M) = ws.map some ∧ ws.length = vs.length := by
  induction vs with
  | nil => exact ⟨[], rfl, rfl⟩
  | cons v vs ih =>
    obtain ⟨ws, h1, h2⟩ := ih
    obtain ⟨b, hb⟩ := softLimit_some M v
    refine ⟨b :: ws, ?_, by simp [h2]⟩
    simp only [List.map_cons, hb]
    rw [← h1]

theorem referenceScale_some (M : MathFns α) (hs0 : ∀ x, 0 ≤ x → 0 ≤ M.sqrt x) (ws : List α)
    (h : ws ≠ []) :
    referenceScale M (ws.map some)
      = some (8 / 100
          / (M.sqrt ((ws.map (fun v => v * v)).sum / (ws.length : α)) + 1 / 1000000))
    ∧ M.sqrt ((ws.map (fun v => v * v)).sum / (ws.length : α)) + 1 / 1000000 ≠ 0 := by
  have hpos : 0 < M.sqrt ((ws.map (fun v => v * v)).sum / (ws.length : α)) + 1 / 1000000 := by
    have := hs0 _ (mean_squares_nonneg ws)
    linarith [show (0 : α) < 1 / 1000000 by norm_num]
  refine ⟨?_, ne_of_gt hpos⟩
  unfold referenceScale
  simp only []
  rw [rms_map_some M ws h, jsAdd_some, jsDiv_some _ _ (ne_of_gt hpos)]

omit [LinearOrderedField α] in
theorem foldl_some {β : Type} (f : JSNum α → β → JSNum α)
    (h : ∀ a b, ∃ c, f (some a) b = some c) (l : List β) (a : α) :
    ∃ c, l.foldl f (some a) = some c := by
  induction l generalizing a with
  | nil => exact ⟨a, rfl⟩
  | cons b l ih =>
    obtain ⟨c, hc⟩ := h a b
    rw [List.foldl_cons, hc]
    exact ih c

theorem echoEstimate_some (M : MathFns α) (ws : List α) (s g : α) (D i : Nat) :
    ∃ e, echoEstimate M (ws.map some) (some s) (some g) D i = some e := by
  unfold echoEstimate
  apply foldl_some
  intro acc d
  by_cases hc : 0 ≤ (i : Int) - (D : Int) - d
      ∧ (i : Int) - (D : Int) - d < ((ws.map some).length : Int)
  · obtain ⟨v, hv⟩ := jsIndex_map_some ws _ hc.1 (by simpa using hc.2)
    simp only [if_pos hc, hv, jsAbs_some, jsNeg_some,
      jsDiv_some _ _ (show (1000 : α) ≠ 0 by norm_num), jsExp, jsMul_some, jsAdd_some]
    exact ⟨_, rfl⟩
  · simp only [if_neg hc]
    exact ⟨_, rfl⟩

theorem clamp_unit_some (o : α) :
    jsMax (some (-1)) (jsMin (some 1) (some o)) = some (max (-1) (min 1 o))
    ∧ -1 ≤ max (-1 : α) (min 1 o) ∧ max (-1 : α) (min 1 o) ≤ 1 :=
  ⟨rfl, le_max_left _ _, max_le (by norm_num) (min_le_left _ _)⟩

theorem outputSample_some (M : MathFns α) (mic ws : List α) (s g : α) (D i : Nat)
    (hi : i < mic.length) :
    ∃ v, outputSample M (mic.map some) (ws.map some) (some s) (some g) D i = some v
      ∧ -1 ≤ v ∧ v ≤ 1 := by
  obtain ⟨m, hm⟩ := jsIndex_natCast_map_some mic i hi
  obtain ⟨e, he⟩ := echoEstimate_some M ws s g D i
  unfold outputSample
  simp only [hm, he, jsMul_some, jsSub_some, jsAbs_some, noiseFloor, jsLt_some]
  split_ifs <;> (try simp only [jsMul_some]) <;> exact ⟨_, clamp_unit_some _⟩

theorem outputSample_nan (M : MathFns α) (mic sys : List (JSNum α)) (scale gain : JSNum α)
    (D i : Nat) (h : jsIndex mic (i : Int) = none) :
    outputSample M mic sys scale gain D i = none := by
  unfold outputSample
  simp only [h, jsSub_none_left, jsAbs_none, jsLt_none_left, jsMul_none_left]
  split_ifs <;> simp

theorem map_range_some (n : Nat) (f : Nat → JSNum α)
    (h : ∀ i, i < n → ∃ v, f i = some v ∧ -1 ≤ v ∧ v ≤ 1) :
    ∃ out : List α, (List.range n).map f = out.map some ∧ out.length = n
      ∧ ∀ v ∈ out, -1 ≤ v ∧ v ≤ 1 := by
  induction n with
  | zero => exact ⟨[], rfl, rfl, by simp⟩
  | succ n ih =>
    obtain ⟨out, h1, h2, h3⟩ := ih (fun i hi => h i (Nat.lt_succ_of_lt hi))
    obtain ⟨v, hv, hv1, hv2⟩ := h n (Nat.lt_succ_self n)
    refine ⟨out ++ [v], ?_, by simp [h2], ?_⟩
    · rw [List.range_succ, List.map_append, h1]
      simp [hv]
    · intro w hw
      rcases List.mem_append.mp hw with hw | hw
      · exact h3 w hw
      · simp only [List.mem_singleton] at hw
        subst hw
        exact ⟨hv1, hv2⟩

/-- The new `echoGain` that `process` computes from the old one and the returned frame. -/
theorem process_finite (M : MathFns α) (hs0 : ∀ x, 0 ≤ x → 0 ≤ M.sqrt x) (mic ref : List α)
    (g : α) (href : ref ≠ []) :
    ∃ out : List α, out.length = mic.length ∧ (∀ v ∈ out, -1 ≤ v ∧ v ≤ 1)
      ∧ SimpleAEC.process M ⟨some g⟩ (mic.map some) (some (ref.map some))
        = (out.map some,
            ⟨jsMax (some 0) (jsMin (some 1) (jsAdd (some g) (jsMul adaptRate
              (jsSub (jsSqrt M (jsDiv (sumOfSquares (out.map some))
                (some (((out.map some).length : Nat) : α)))) targetErr))))⟩) := by
  obtain ⟨ws, hws, hlen⟩ := map_softLimit_some M ref
  have hwsne : ws ≠ [] := by
    intro h
    apply href
    rw [h] at hlen
    exact List.length_eq_zero.mp hlen.symm
  obtain ⟨hscale, _⟩ := referenceScale_some M hs0 ws hwsne
  have hnz : ¬ ((ref.map some).length = 0) := by simpa using href
  unfold SimpleAEC.process
  simp only [hnz, if_false, hws, hscale]
  obtain ⟨out, h1, h2, h3⟩ := map_range_some (mic.map some).length
    (outputSample M (mic.map some) (ws.map some)
      (some (8 / 100 / (M.sqrt ((ws.map (fun v => v * v)).sum / (ws.length : α)) + 1 / 1000000)))
      (some g) (findOptimalDelay (mic.map some) (ws.map some)))
    (fun i hi => outputSample_some M mic ws _ g _ i (by simpa using hi))
  refine ⟨out, by simpa using h2, h3, ?_⟩
  rw [h1]

end Process

/-! ## Echo canceller: the claims on `process` -/

section ProcessClaims

variable {α : Type} [LinearOrderedField α]

theorem process_length (M : MathFns α) (st : SimpleAEC α) (mic : List (JSNum α))
    (sys : Option (List (JSNum α))) :
    (st.process M mic sys).1.length = mic.length := by
  unfold SimpleAEC.process
  cases sys with
  | none => rfl
  | some sys0 =>
    by_cases h : sys0.length = 0
    · simp only [h, if_true]
    · simp only [h, if_false, List.length_map, List.length_range]

/-- C1 as stated fails: with an empty reference the microphone frame is returned as it
is, so a sample `2` stays `2`. -/
theorem C1_output_can_leave_unit_range :
    (SimpleAEC.process (MathFns.mk Real.sqrt Real.tanh Real.exp) ⟨some (1 / 2)⟩
        [some 2] (some [])).1 = [some 2]
    ∧ ¬ (∀ x ∈ (SimpleAEC.process (MathFns.mk Real.sqrt Real.tanh Real.exp) ⟨some (1 / 2)⟩
          [some 2] (some [])).1, ∃ v : ℝ, x = some v ∧ -1 ≤ v ∧ v ≤ 1) := by
  refine ⟨rfl, ?_⟩
  intro h
  obtain ⟨v, hv, _, hv2⟩ := h (some 2) (by simp [SimpleAEC.process])
  have : (2 : ℝ) = v := Option.some.inj hv
  rw [← this] at hv2
  norm_num at hv2

/-- C1, amended: the returned frame always has the length of the microphone frame; when
the reference is non-empty and the samples and `echoGain` are numbers (not `NaN`), every
returned sample is a number in `[-1, 1]`; with an empty or absent reference the returned
frame is the microphone frame itself.  (`Math.sqrt` is taken to be non-negative.) -/
theorem C1_length_and_clamped_range (M : MathFns α) (hs0 : ∀ x, 0 ≤ x → 0 ≤ M.sqrt x)
    (st : SimpleAEC α) (micData : List (JSNum α)) (systemData : Option (List (JSNum α)))
    (mic ref : List α) (g : α) (href : ref ≠ []) :
    (st.process M micData systemData).1.length = micData.length
    ∧ (∀ x ∈ (SimpleAEC.process M ⟨some g⟩ (mic.map some) (some (ref.map some))).1,
        ∃ v, x = some v ∧ -1 ≤ v ∧ v ≤ 1)
    ∧ (st.process M micData none).1 = micData
    ∧ (st.process M micData (some [])).1 = micData := by
  refine ⟨process_length M st micData systemData, ?_, rfl, rfl⟩
  obtain ⟨out, _, hr, hp⟩ := process_finite M hs0 mic ref g href
  rw [hp]
  intro x hx
  simp only [List.mem_map] at hx
  obtain ⟨v, hv, rfl⟩ := hx
  exact ⟨v, rfl, hr v hv⟩

/-- C1, amended, at a concrete input with the real `sqrt`, `tanh` and `exp`. -/
theorem C1_length_and_clamped_range_witness :
    (∀ x : ℝ, 0 ≤ x → 0 ≤ Real.sqrt x)
    ∧ ([1 / 4] : List ℝ) ≠ []
    ∧ ∀ x ∈ (SimpleAEC.process (MathFns.mk Real.sqrt Real.tanh Real.exp) ⟨some (1 / 2)⟩
          (([3, -1 / 2] : List ℝ).map some) (some (([1 / 4] : List ℝ).map some))).1,
        ∃ v : ℝ, x = some v ∧ -1 ≤ v ∧ v ≤ 1 :=
  ⟨fun x _ => Real.sqrt_nonneg x, by simp,
    (C1_length_and_clamped_range (MathFns.mk Real.sqrt Real.tanh Real.exp)
      (fun x _ => Real.sqrt_nonneg x) ⟨some (1 / 2)⟩ [] none [3, -1 / 2] [1 / 4] (1 / 2)
      (by simp)).2.1⟩

theorem clamp_gain_step (g δ : α) (hg0 : 0 ≤ g) (hg1 : g ≤ 1) :
    0 ≤ max 0 (min 1 (g + δ)) ∧ max 0 (min 1 (g + δ)) ≤ 1
    ∧ |max 0 (min 1 (g + δ)) - g| ≤ |δ| := by
  refine ⟨le_max_left _ _, max_le (by norm_num) (min_le_left _ _), ?_⟩
  rw [abs_le]
  constructor
  · have h1 : g + δ ≤ max 0 (min 1 (g + δ)) ∨ 1 ≤ max 0 (min 1 (g + δ)) := by
      rcases le_total 1 (g + δ) with h | h
      · right; rw [min_eq_left h]; exact le_max_right _ _
      · left; rw [min_eq_right h]; exact le_max_right _ _
    have := neg_abs_le δ
    rcases h1 with h1 | h1 <;> have := abs_nonneg δ <;> linarith
  · have h2 : max 0 (min 1 (g + δ)) ≤ g + δ ∨ max 0 (min 1 (g + δ)) ≤ 0 := by
      rcases le_total 0 (min 1 (g + δ)) with h | h
      · left; rw [max_eq_right h]; exact min_le_right _ _
      · right; rw [max_eq_left h]
    have := le_abs_self δ
    rcases h2 with h2 | h2 <;> have := abs_nonneg δ <;> linarith

theorem mean_squares_le_one (out : List α) (h : ∀ v ∈ out, -1 ≤ v ∧ v ≤ 1) :
    (out.map (fun v => v * v)).sum / (out.length : α) ≤ 1 := by
  have hsum : (out.map (fun v => v * v)).sum ≤ (out.length : α) := by
    induction out with
    | nil => simp
    | cons v out ih =>
      have hv := h v (List.mem_cons_self _ _)
      have := ih (fun w hw => h w (List.mem_cons_of_mem _ hw))
      simp only [List.map_cons, List.sum_cons, List.length_cons, Nat.cast_add, Nat.cast_one]
      nlinarith
  rcases Nat.eq_zero_or_pos out.length with h0 | hpos
  · simp [h0]
  · rw [div_le_one (by exact_mod_cast hpos)]
    exact hsum

theorem process_gain_finite (M : MathFns α) (hs0 : ∀ x, 0 ≤ x → 0 ≤ M.sqrt x)
    (mic ref : List α) (g : α) (hmic : mic ≠ []) (href : ref ≠ []) :
    ∃ out : List α, out.length = mic.length ∧ (∀ v ∈ out, -1 ≤ v ∧ v ≤ 1)
      ∧ SimpleAEC.process M ⟨some g⟩ (mic.map some) (some (ref.map some))
        = (out.map some, ⟨some (max 0 (min 1 (g + 1 / 10 * (rms M out - 2 / 1000))))⟩) := by
  obtain ⟨out, hlen, hr, hp⟩ := process_finite M hs0 mic ref g href
  have hout : out ≠ [] := by
    intro h
    rw [h] at hlen
    exact hmic (List.length_eq_zero.mp hlen.symm)
  refine ⟨out, hlen, hr, ?_⟩
  rw [hp, rms_map_some M out hout]
  simp only [targetErr, adaptRate, jsSub_some, jsMul_some, jsAdd_some, jsMin_some, jsMax_some, rms]

/-- C7: for a non-empty microphone frame, a non-empty reference and a prior `echoGain`
`g` in `[0, 1]` (all numbers), the new `echoGain` is
`clamp(g + 0.1 * (outputRms - 0.002), 0, 1)` with `outputRms` the RMS of the returned
frame; it lies in `[0, 1]` and differs from `g` by at most `0.1 * |outputRms - 0.002|`,
which is at most `0.0998`.  (`Math.sqrt` is taken to map `[0, 1]` into `[0, 1]` and to be
non-negative.) -/
theorem C7_gain_update_bounded (M : MathFns α) (hs0 : ∀ x, 0 ≤ x → 0 ≤ M.sqrt x)
    (hs1 : ∀ x, 0 ≤ x → x ≤ 1 → M.sqrt x ≤ 1) (mic ref : List α) (g : α)
    (hmic : mic ≠ []) (href : ref ≠ []) (hg0 : 0 ≤ g) (hg1 : g ≤ 1) :
    ∃ (out : List α) (g' : α),
      SimpleAEC.process M ⟨some g⟩ (mic.map some) (some (ref.map some))
        = (out.map some, ⟨some g'⟩)
      ∧ g' = max 0 (min 1 (g + 1 / 10 * (rms M out - 2 / 1000)))
      ∧ 0 ≤ g' ∧ g' ≤ 1
      ∧ |g' - g| ≤ 1 / 10 * |rms M out - 2 / 1000|
      ∧ 1 / 10 * |rms M out - 2 / 1000| ≤ 998 / 10000 := by
  obtain ⟨out, _, hr, hp⟩ := process_gain_finite M hs0 mic ref g hmic href
  obtain ⟨c0, c1, c2⟩ := clamp_gain_step g (1 / 10 * (rms M out - 2 / 1000)) hg0 hg1
  have hr0 : 0 ≤ rms M out := hs0 _ (mean_squares_nonneg out)
  have hr1 : rms M out ≤ 1 := hs1 _ (mean_squares_nonneg out) (mean_squares_le_one out hr)
  have habs : |rms M out - 2 / 1000| ≤ 998 / 1000 := by
    rw [abs_le]; constructor <;> linarith
  refine ⟨out, _, hp, rfl, c0, c1, ?_, by linarith⟩
  have e : |1 / 10 * (rms M out - 2 / 1000)| = 1 / 10 * |rms M out - 2 / 1000| := by
    rw [abs_mul, abs_of_pos (by norm_num : (0 : α) < 1 / 10)]
  rw [← e]
  exact c2

/-- C7 at a concrete input with the real `sqrt`, `tanh` and `exp`. -/
theorem C7_gain_update_bounded_witness :
    (∀ x : ℝ, 0 ≤ x → 0 ≤ Real.sqrt x)
    ∧ (∀ x : ℝ, 0 ≤ x → x ≤ 1 → Real.sqrt x ≤ 1)
    ∧ ([3, -1 / 2] : List ℝ) ≠ [] ∧ ([1 / 4] : List ℝ) ≠ []
    ∧ (0 : ℝ) ≤ 1 / 2 ∧ (1 / 2 : ℝ) ≤ 1
    ∧ ∃ (out : List ℝ) (g' : ℝ),
      SimpleAEC.process (MathFns.mk Real.sqrt Real.tanh Real.exp) ⟨some (1 / 2)⟩
          (([3, -1 / 2] : List ℝ).map some) (some (([1 / 4] : List ℝ).map some))
        = (out.map some, ⟨some g'⟩)
      ∧ g' = max 0 (min 1 (1 / 2
          + 1 / 10 * (rms (MathFns.mk Real.sqrt Real.tanh Real.exp) out - 2 / 1000)))
      ∧ 0 ≤ g' ∧ g' ≤ 1
      ∧ |g' - 1 / 2| ≤ 1 / 10 * |rms (MathFns.mk Real.sqrt Real.tanh Real.exp) out - 2 / 1000|
      ∧ 1 / 10 * |rms (MathFns.mk Real.sqrt Real.tanh Real.exp) out - 2 / 1000|
          ≤ 998 / 10000 :=
  ⟨fun x _ => Real.sqrt_nonneg x, fun x _ h => Real.sqrt_le_one.mpr h,
    by simp, by simp, by norm_num, by norm_num,
    C7_gain_update_bounded (MathFns.mk Real.sqrt Real.tanh Real.exp)
      (fun x _ => Real.sqrt_nonneg x) (fun x _ h => Real.sqrt_le_one.mpr h)
      [3, -1 / 2] [1 / 4] (1 / 2) (by simp) (by simp) (by norm_num) (by norm_num)⟩

theorem process_empty_mic (M : MathFns α) (hs0 : ∀ x, 0 ≤ x → 0 ≤ M.sqrt x) (ref : List α)
    (g : α) (href : ref ≠ []) :
    SimpleAEC.process M ⟨some g⟩ [] (some (ref.map some)) = ([], ⟨none⟩) := by
  obtain ⟨out, hlen, _, hp⟩ := process_finite M hs0 [] ref g href
  have hout : out = [] := List.length_eq_zero.mp hlen
  subst hout
  have hp2 := hp
  simp only [List.map_nil, List.length_nil, Nat.cast_zero, jsDiv_zero, jsSqrt_none,
    jsSub_none_left, jsMul_none_right, jsAdd_none_right, jsMin_none_right,
    jsMax_none_right] at hp2
  exact hp2

end ProcessClaims

section NaNGain

variable {α : Type} [LinearOrderedField α]

omit [LinearOrderedField α] in
theorem foldl_nan_absorbing {β : Type} (f : JSNum α → β → JSNum α)
    (hf : ∀ b, f none b = none) (l : List β) : l.foldl f none = none := by
  induction l with
  | nil => rfl
  | cons b l ih => rw [List.foldl_cons, hf, ih]

omit [LinearOrderedField α] in
theorem foldl_hits_nan {β : Type} (f : JSNum α → β → JSNum α) (hf : ∀ b, f none b = none)
    (l : List β) (b0 : β) (hmem : b0 ∈ l) (hb : ∀ acc, f acc b0 = none) (a : JSNum α) :
    l.foldl f a = none := by
  induction l generalizing a with
  | nil => simp at hmem
  | cons b l ih =>
    rw [List.foldl_cons]
    rcases List.mem_cons.mp hmem with h | h
    · subst h
      rw [hb, foldl_nan_absorbing f hf]
    · exact ih h _

/-- With `echoGain = NaN` the echo estimate is `NaN` as soon as the tap `d = 0` reads
inside the reference. -/
theorem echoEstimate_nan_gain (M : MathFns α) (sys : List (JSNum α)) (scale : JSNum α)
    (D i : Nat) (h0 : 0 ≤ (i : Int) - (D : Int)) (h1 : (i : Int) - (D : Int) < (sys.length : Int)) :
    echoEstimate M sys scale none D i = none := by
  unfold echoEstimate
  apply foldl_hits_nan _ _ _ 0 (by decide)
  · intro acc
    have hc : 0 ≤ (i : Int) - (D : Int) - 0 ∧ (i : Int) - (D : Int) - 0 < (sys.length : Int) := by
      constructor <;> omega
    simp only [if_pos hc, jsMul_none_right, jsMul_none_left, jsAdd_none_right]
  · intro d
    simp only [jsAdd_none_left, ite_self]

theorem outputSample_nan_echo (M : MathFns α) (mic sys : List (JSNum α)) (scale gain : JSNum α)
    (D i : Nat) (h : echoEstimate M sys scale gain D i = none) :
    outputSample M mic sys scale gain D i = none := by
  unfold outputSample
  simp only [h, jsMul_none_left, jsSub_none_right, jsAbs_none, jsLt_none_left]
  split_ifs <;> simp

end NaNGain

theorem tanh_two_pos : 0 < Real.tanh 2 := by
  rw [Real.tanh_eq_sinh_div_cosh]
  exact div_pos (Real.sinh_pos_iff.mpr (by norm_num)) (Real.cosh_pos 2)

theorem findOptimalDelay_example :
    findOptimalDelay [some (1 / 2 : ℝ)] [some (Real.tanh 2)] = 0 := by
  have hc : delayCandidates 1 = [0] := by decide
  have hr : List.range (min 500 1) = [0] := by decide
  have h := tanh_two_pos
  unfold findOptimalDelay
  simp only [List.length_singleton, hc, List.foldl_cons, List.foldl_nil, delayStep, correlationAt,
    hr]
  simp [jsIndex, jsDiv, h.ne', abs_pos]

theorem softLimit_half :
    softLimit (MathFns.mk Real.sqrt Real.tanh Real.exp) (some (1 / 2)) = some (Real.tanh 2) := by
  unfold softLimit
  have h1 : ¬ ((98 / 100 : ℝ) < 1 / 2) := by norm_num
  have h2 : ¬ ((1 / 2 : ℝ) < -(98 / 100)) := by norm_num
  simp only [jsGt_some, jsLt_some, h1, h2, decide_False, Bool.false_eq_true, if_false,
    jsMul_some, jsTanh]
  norm_num

/-- C9, the code at the failing input: an empty microphone frame with the reference
`[0.5]` divides `0` by `output.length = 0`, which leaves `echoGain = NaN`; the next call,
on the microphone frame `[0.5]` and the same reference, then returns a `NaN` sample. -/
theorem C9_empty_mic_makes_gain_nan :
    SimpleAEC.process (MathFns.mk Real.sqrt Real.tanh Real.exp) ⟨some (1 / 2)⟩ []
        (some [some (1 / 2)]) = ([], ⟨none⟩)
    ∧ (SimpleAEC.process (MathFns.mk Real.sqrt Real.tanh Real.exp) ⟨none⟩ [some (1 / 2)]
        (some [some (1 / 2)])).1 = [none] := by
  constructor
  · exact process_empty_mic (MathFns.mk Real.sqrt Real.tanh Real.exp)
      (fun x _ => Real.sqrt_nonneg x) [1 / 2] (1 / 2) (by simp)
  · have hr : List.range 1 = [0] := rfl
    unfold SimpleAEC.process
    simp only [List.length_singleton, one_ne_zero, if_false, hr, List.map_cons, List.map_nil,
      softLimit_half, findOptimalDelay_example]
    rw [outputSample_nan_echo]
    exact echoEstimate_nan_gain _ _ _ 0 0 (by simp) (by simp)

/-! ## Delay estimation -/

section Delay

variable {α : Type} [LinearOrderedField α]

/-- When the microphone samples that are correlated are all zero, `corr` ends as `0` or
`NaN`. -/
theorem correlationAt_zero_prefix (mic sys : List (JSNum α)) (delay : Nat)
    (hz : ∀ i, i < min 500 mic.length → jsIndex mic (i : Int) = some 0) :
    (correlationAt mic sys delay).1 = some 0 ∨ (correlationAt mic sys delay).1 = none := by
  unfold correlationAt
  generalize min 500 mic.length = n at hz
  induction n with
  | zero => left; rfl
  | succ n ih =>
    rw [List.range_succ, List.foldl_append, List.foldl_cons, List.foldl_nil]
    have ih2 := ih (fun i hi => hz i (Nat.lt_succ_of_lt hi))
    by_cases hc : n + delay < sys.length
    · simp only [if_pos hc, hz n (Nat.lt_succ_self n)]
      rcases ih2 with h | h
      · rw [h]
        cases jsIndex sys ((n + delay : Nat) : Int) <;> simp
      · rw [h]; right; rfl
    · simp only [if_neg hc]
      exact ih2

theorem delayStep_zero_prefix (mic sys : List (JSNum α)) (delay D : Nat)
    (hz : ∀ i, i < min 500 mic.length → jsIndex mic (i : Int) = some 0) :
    delayStep mic sys (some 0, D) delay = (some 0, D) := by
  unfold delayStep
  by_cases hc : (correlationAt mic sys delay).2 > 0
  · simp only [hc, if_true]
    have hne : (((correlationAt mic sys delay).2 : Nat) : α) ≠ 0 := by
      exact_mod_cast (Nat.pos_iff_ne_zero.mp hc)
    rcases correlationAt_zero_prefix mic sys delay hz with h | h
    · rw [h, jsDiv_some _ _ hne]
      simp
    · rw [h]
      simp
  · simp only [hc, if_false]

/-- When the first `min(500, length)` microphone samples are zero, `findOptimalDelay`
returns the default `delaySamples`. -/
theorem findOptimalDelay_zero_prefix (mic sys : List (JSNum α))
    (hz : ∀ i, i < min 500 mic.length → jsIndex mic (i : Int) = some 0) :
    findOptimalDelay mic sys = delaySamples := by
  unfold findOptimalDelay
  generalize delayCandidates sys.length = l
  suffices h : l.foldl (delayStep mic sys) (some 0, delaySamples) = (some 0, delaySamples) by
    rw [h]
  induction l with
  | nil => rfl
  | cons d l ih => rw [List.foldl_cons, delayStep_zero_prefix mic sys d _ hz, ih]

theorem jsIndex_silence_append (n : Nat) (ref : List (JSNum α)) (i : Nat) (hi : i < n) :
    jsIndex (List.replicate n (some (0 : α)) ++ ref) (i : Int) = some 0 := by
  unfold jsIndex
  have h0 : ¬ ((i : Int) < 0) := by omega
  have hlen : i < (List.replicate n (some (0 : α))).length := by
    rw [List.length_replicate]; exact hi
  rw [if_neg h0, Int.toNat_ofNat, List.getD_eq_getElem?_getD, List.getElem?_append_left hlen,
    List.getElem?_replicate, if_pos hi]
  rfl

theorem findOptimalDelay_delayed (ref sys : List (JSNum α)) :
    findOptimalDelay (List.replicate 1000 (some (0 : α)) ++ ref) sys = 2400 :=
  findOptimalDelay_zero_prefix _ sys (fun i hi =>
    jsIndex_silence_append 1000 ref i
      (lt_of_lt_of_le hi (le_trans (Nat.min_le_left _ _) (by norm_num))))

end Delay

/-- C8 as stated fails: for the reference `[1]` and the microphone signal that is this
reference 1000 samples later (1000 zero samples, then `1`), `findOptimalDelay` returns the
default 2400, which is 1400 away from 1000; it returns 2400 also when reference and
microphone signal are both silent, whichever way one is shifted. -/
theorem C8_delayed_echo_not_found :
    findOptimalDelay (List.replicate 1000 (some (0 : ℚ)) ++ [some 1]) [some 1] = 2400
    ∧ ¬ (|((findOptimalDelay (List.replicate 1000 (some (0 : ℚ)) ++ [some 1]) [some 1] : Nat)
          : Int) - 1000| ≤ 200)
    ∧ findOptimalDelay (List.replicate 3000 (some (0 : ℚ))) (List.replicate 3000 (some 0))
        = 2400 := by
  have h := findOptimalDelay_delayed [some (1 : ℚ)] [some 1]
  refine ⟨h, ?_, ?_⟩
  · rw [h]
    decide
  · have e : List.replicate 3000 (some (0 : ℚ))
        = List.replicate 1000 (some (0 : ℚ)) ++ List.replicate 2000 (some 0) := by
      rw [← List.replicate_add]
    rw [e]
    exact findOptimalDelay_delayed _ _

section Impulse

variable {α : Type} [LinearOrderedField α]

theorem jsIndex_impulse (p : Nat) (a : α) (k i : Nat) (hi : i < p + 1 + k) :
    jsIndex ((impulse p a k).map some) (i : Int) = some (if i = p then a else 0) := by
  unfold jsIndex impulse
  have h0 : ¬ ((i : Int) < 0) := by omega
  rw [if_neg h0, Int.toNat_ofNat, List.getD_eq_getElem?_getD, List.getElem?_map]
  rcases Nat.lt_trichotomy i p with h | h | h
  · rw [List.getElem?_append_left (by rw [List.length_replicate]; exact h),
      List.getElem?_replicate, if_pos h, if_neg (Nat.ne_of_lt h)]
    rfl
  · subst h
    rw [List.getElem?_append_right (by rw [List.length_replicate])]
    simp
  · rw [List.getElem?_append_right (by rw [List.length_replicate]; omega),
      List.length_replicate, if_neg (Nat.ne_of_gt h)]
    obtain ⟨j, hj⟩ : ∃ j, i - p = j + 1 := ⟨i - p - 1, by omega⟩
    rw [hj, List.getElem?_cons_succ, List.getElem?_replicate, if_pos (by omega)]
    rfl

theorem length_impulse (p : Nat) (a : α) (k : Nat) :
    ((impulse p a k).map some).length = p + 1 + k := by
  simp [impulse]
  omega

/-- The inner loop of `findOptimalDelay` on a microphone impulse at `p` and a reference
impulse at `p + 1000`: `corr` is `a * b` at `delay = 1000` and `0` at any other delay. -/
theorem correlationAt_impulse (p : Nat) (a b : α) (k m d : Nat) (hp : p < 500) :
    ∃ c, correlationAt ((impulse p a k).map some) ((impulse (p + 1000) b m).map some) d
        = (some (if d = 1000 then a * b else 0), c)
      ∧ (d = 1000 → 0 < c) := by
  unfold correlationAt
  have hn : p < min 500 ((impulse p a k).map some).length := by
    rw [length_impulse]; exact lt_min hp (by omega)
  have hle : min 500 ((impulse p a k).map some).length ≤ p + 1 + k := by
    rw [length_impulse]; exact Nat.min_le_right _ _
  generalize min 500 ((impulse p a k).map some).length = n at hn hle
  suffices h : ∀ j, j ≤ n → ∃ c,
      (List.range j).foldl
        (fun (acc : JSNum α × Nat) i =>
          if i + d < ((impulse (p + 1000) b m).map some).length then
            (jsAdd acc.1 (jsMul (jsIndex ((impulse p a k).map some) (i : Int))
              (jsIndex ((impulse (p + 1000) b m).map some) ((i + d : Nat) : Int))), acc.2 + 1)
          else acc)
        (some 0, 0)
        = (some (if p < j ∧ d = 1000 then a * b else 0), c)
      ∧ (p < j → d = 1000 → 0 < c) by
    obtain ⟨c, h1, h2⟩ := h n (le_refl n)
    refine ⟨c, ?_, h2 hn⟩
    rw [h1]
    simp only [hn, true_and]
  intro j
  induction j with
  | zero =>
    intro _
    exact ⟨0, by simp, by intro h; omega⟩
  | succ j ih =>
    intro hj
    obtain ⟨c, h1, h2⟩ := ih (by omega)
    rw [List.range_succ, List.foldl_append, h1, List.foldl_cons, List.foldl_nil]
    by_cases hc : j + d < ((impulse (p + 1000) b m).map some).length
    · have hc2 : j + d < p + 1000 + 1 + m := by rw [length_impulse] at hc; exact hc
      rw [if_pos hc, jsIndex_impulse p a k j (by omega),
        jsIndex_impulse (p + 1000) b m (j + d) hc2]
      refine ⟨c + 1, ?_, fun _ _ => Nat.succ_pos c⟩
      simp only [jsMul_some, jsAdd_some, Prod.mk.injEq, and_true, Option.some.injEq]
      by_cases hjp : j = p
      · subst hjp
        by_cases hd : d = 1000
        · subst hd
          simp
        · have : ¬ (j + d = j + 1000) := by omega
          simp [hd, this]
      · have hiff : (p < j + 1) ↔ (p < j) := by
          constructor
          · intro h
            exact lt_of_le_of_ne (Nat.lt_succ_iff.mp h) (fun e => hjp e.symm)
          · intro h
            exact Nat.lt_succ_of_lt h
        simp [hjp, hiff]
    · rw [if_neg hc]
      have hc2 : ¬ (j + d < p + 1000 + 1 + m) := by rw [length_impulse] at hc; exact hc
      refine ⟨c, ?_, ?_⟩
      · by_cases hd : d = 1000
        · have h3 : p < j + 1 := by omega
          have h4 : p < j := by omega
          simp [h3, h4, hd]
        · simp [hd]
      · intro _ hd
        exact h2 (by omega) hd

theorem delayStep_impulse_other (p : Nat) (a b : α) (k m d D : Nat) (v : α) (hp : p < 500)
    (hd : d ≠ 1000) (hv : 0 ≤ v) :
    delayStep ((impulse p a k).map some) ((impulse (p + 1000) b m).map some) (some v, D) d
      = (some v, D) := by
  obtain ⟨c, hc, _⟩ := correlationAt_impulse p a b k m d hp
  unfold delayStep
  rw [hc]
  by_cases hpos : c > 0
  · have hne : ((c : Nat) : α) ≠ 0 := by exact_mod_cast (Nat.pos_iff_ne_zero.mp hpos)
    simp only [hpos, if_true, if_neg hd, jsDiv_some _ _ hne, zero_div, jsAbs_some, abs_zero,
      jsGt_some, not_lt.mpr hv, decide_False, Bool.false_eq_true, if_false]
  · simp only [hpos, if_false]

theorem delayStep_impulse_hit (p : Nat) (a b : α) (k m D : Nat) (v : α) (hp : p < 500)
    (ha : a ≠ 0) (hb : b ≠ 0) (hD : 0 < v → D = 1000) :
    ∃ s, 0 < s ∧ delayStep ((impulse p a k).map some) ((impulse (p + 1000) b m).map some)
        (some v, D) 1000 = (some s, 1000) := by
  obtain ⟨c, hc, hcpos⟩ := correlationAt_impulse p a b k m 1000 hp
  have hpos : c > 0 := hcpos rfl
  have hne : ((c : Nat) : α) ≠ 0 := by exact_mod_cast (Nat.pos_iff_ne_zero.mp hpos)
  have hs : 0 < |a * b / (c : α)| :=
    abs_pos.mpr (div_ne_zero (mul_ne_zero ha hb) hne)
  unfold delayStep
  rw [hc]
  simp only [hpos, if_true, jsDiv_some _ _ hne, jsAbs_some, jsGt_some]
  by_cases hlt : v < |a * b / (c : α)|
  · exact ⟨_, hs, by simp [hlt]⟩
  · have hv0 : 0 < v := lt_of_lt_of_le hs (not_lt.mp hlt)
    exact ⟨v, hv0, by simp [hlt, hD hv0]⟩

theorem foldl_delayStep_impulse (p : Nat) (a b : α) (k m : Nat) (hp : p < 500) (ha : a ≠ 0)
    (hb : b ≠ 0) (l : List Nat) (v : α) (D : Nat) (hv : 0 ≤ v) (hD : 0 < v → D = 1000)
    (hl : 0 < v ∨ 1000 ∈ l) :
    (l.foldl (delayStep ((impulse p a k).map some) ((impulse (p + 1000) b m).map some))
      (some v, D)).2 = 1000 := by
  induction l generalizing v D with
  | nil =>
    rcases hl with h | h
    · exact hD h
    · simp at h
  | cons d l ih =>
    rw [List.foldl_cons]
    by_cases hd : d = 1000
    · subst hd
      obtain ⟨s, hs, hstep⟩ := delayStep_impulse_hit p a b k m D v hp ha hb hD
      rw [hstep]
      exact ih s 1000 hs.le (fun _ => rfl) (Or.inl hs)
    · rw [delayStep_impulse_other p a b k m d D v hp hd hv]
      refine ih v D hv hD ?_
      rcases hl with h | h
      · exact Or.inl h
      · rcases List.mem_cons.mp h with h2 | h2
        · exact absurd h2.symm hd
        · exact Or.inr h2

theorem mem_delayCandidates_1000 (len : Nat) (h : 1000 < len) :
    1000 ∈ delayCandidates len := by
  unfold delayCandidates
  have e : (List.range 26).map (fun k => 200 * k)
      = [0, 200, 400, 600, 800] ++ 1000 :: ((List.range 20).map (fun k => 1200 + 200 * k)) := by
    decide
  rw [e, List.takeWhile_append_of_pos, List.takeWhile_cons_of_pos]
  · simp
  · simp [h]
  · intro x hx
    simp only [List.mem_cons, List.mem_singleton, List.not_mem_nil, or_false] at hx
    rcases hx with h1 | h1 | h1 | h1 | h1 <;> subst h1 <;> simp <;> omega

theorem findOptimalDelay_impulse (p : Nat) (a b : α) (k m : Nat) (hp : p < 500) (ha : a ≠ 0)
    (hb : b ≠ 0) :
    findOptimalDelay ((impulse p a k).map some) ((impulse (p + 1000) b m).map some) = 1000 := by
  unfold findOptimalDelay
  refine foldl_delayStep_impulse p a b k m hp ha hb _ 0 _ (le_refl 0)
    (fun h => absurd h (lt_irrefl 0)) (Or.inr ?_)
  apply mem_delayCandidates_1000
  rw [length_impulse]
  omega

/-- C8, amended: for a microphone signal that is the reference 1000 samples later, after
silence (1000 zero samples, then the reference), `findOptimalDelay` returns the default
delay 2400 whatever the reference, because the microphone samples it correlates are all
zero.  The estimator matches `mic[i]` against `ref[i + delay]`: when the microphone frame
is an impulse at a position `p < 500` and the reference is an impulse 1000 samples later,
at `p + 1000`, it returns exactly 1000. -/
theorem C8_delay_estimate_direction (ref sys : List (JSNum α)) (p : Nat) (a b : α)
    (k m : Nat) (hp : p < 500) (ha : a ≠ 0) (hb : b ≠ 0) :
    findOptimalDelay (List.replicate 1000 (some (0 : α)) ++ ref) sys = 2400
    ∧ findOptimalDelay (List.replicate 1000 (some (0 : α)) ++ ref) ref = 2400
    ∧ findOptimalDelay ((impulse p a k).map some) ((impulse (p + 1000) b m).map some)
        = 1000 :=
  ⟨findOptimalDelay_delayed ref sys, findOptimalDelay_delayed ref ref,
    findOptimalDelay_impulse p a b k m hp ha hb⟩

/-- C8, amended, at a concrete input: an impulse at position 3 in the microphone frame
and at position 1003 in the reference. -/
theorem C8_delay_estimate_direction_witness :
    3 < 500 ∧ (1 / 2 : ℚ) ≠ 0 ∧ (1 / 4 : ℚ) ≠ 0
    ∧ findOptimalDelay ((impulse 3 (1 / 2 : ℚ) 5).map some)
        ((impulse (3 + 1000) (1 / 4 : ℚ) 7).map some) = 1000 :=
  ⟨by decide, by norm_num, by norm_num,
    (C8_delay_estimate_direction ([] : List (JSNum ℚ)) [] 3 (1 / 2) (1 / 4) 5 7 (by decide)
      (by norm_num) (by norm_num)).2.2⟩

end Impulse

/-! ## Starting and stopping: what is released -/

/-- On Linux `startCapture` never stores the microphone stream in the module-level
`micMediaStream`. -/
theorem startCapture_linux_micMediaStream (env : StartEnv) (s : Session) :
    (startCapture Platform.linux env s).1.micMediaStream = s.micMediaStream := by
  unfold startCapture startScreenshots
  cases env.displayMedia <;> cases env.userMedia <;> cases env.manual <;> rfl

/-- C11, the code at the failing input: on Linux, `startCapture` from the idle state with
a display stream of tracks 1, 2 and a microphone stream of track 3 acquires both streams,
leaves the module-level `micMediaStream` null, and the following `stopCapture` never stops
track 3 (nor closes the `AudioContext` 10); on macOS the same microphone stream is stored
and its track is stopped, and on Windows every acquired handle is released. -/
theorem C11_linux_mic_stream_not_stopped :
    (startCapture Platform.linux ⟨true, true, some ⟨[1, 2]⟩, some ⟨[3]⟩, 10, 11, false, 12⟩
        ⟨none, none, none, none, none⟩).2
      = [Acquired.displayStream ⟨[1, 2]⟩, Acquired.micStream ⟨[3]⟩, Acquired.context 10,
          Acquired.processor 11, Acquired.interval 12]
    ∧ (startCapture Platform.linux ⟨true, true, some ⟨[1, 2]⟩, some ⟨[3]⟩, 10, 11, false, 12⟩
        ⟨none, none, none, none, none⟩).1.micMediaStream = none
    ∧ (stopCapture false
        (startCapture Platform.linux ⟨true, true, some ⟨[1, 2]⟩, some ⟨[3]⟩, 10, 11, false, 12⟩
          ⟨none, none, none, none, none⟩).1).2
      = [Request.clearInterval 12, Request.disconnect 11, Request.stopTrack 1,
          Request.stopTrack 2, Request.invoke "stop-screen-capture"]
    ∧ (Acquired.micStream ⟨[3]⟩).releasedBy
        (stopCapture false
          (startCapture Platform.linux
            ⟨true, true, some ⟨[1, 2]⟩, some ⟨[3]⟩, 10, 11, false, 12⟩
            ⟨none, none, none, none, none⟩).1).2 = false
    ∧ (Acquired.micStream ⟨[3]⟩).releasedBy
        (stopCapture true
          (startCapture Platform.macOS
            ⟨true, true, some ⟨[1, 2]⟩, some ⟨[3]⟩, 10, 11, false, 12⟩
            ⟨none, none, none, none, none⟩).1).2 = true
    ∧ ((startCapture Platform.windows
          ⟨true, true, some ⟨[1, 2]⟩, some ⟨[3]⟩, 10, 11, false, 12⟩
          ⟨none, none, none, none, none⟩).2.all
        (fun a => a.releasedBy
          (stopCapture false
            (startCapture Platform.windows
              ⟨true, true, some ⟨[1, 2]⟩, some ⟨[3]⟩, 10, 11, false, 12⟩
              ⟨none, none, none, none, none⟩).1).2)) = true := by
  refine ⟨by decide, by decide, by decide, by decide, by decide, by decide⟩

/-! ## What survives from one session to the next -/

section Sessions

variable {α : Type} [LinearOrderedField α]

/-- C12 as stated fails: after one reference arrival, a `stopCapture` and a
`startCapture`, `systemAudioBuffer` still holds the entry that arrived. -/
theorem C12_buffer_survives_restart :
    (Renderer.run (MathFns.mk Real.sqrt Real.tanh Real.exp) (fun _ => some [0, 64])
        Platform.macOS
        [Event.systemAudioData ⟨"AEA=", 5⟩, Event.stopCapture,
          Event.startCapture ⟨true, true, none, some ⟨[3]⟩, 10, 11, false, 12⟩]).systemAudioBuffer
      = [⟨"AEA=", 5⟩]
    ∧ (Renderer.run (MathFns.mk Real.sqrt Real.tanh Real.exp) (fun _ => some [0, 64])
        Platform.macOS
        [Event.systemAudioData ⟨"AEA=", 5⟩, Event.stopCapture,
          Event.startCapture ⟨true, true, none, some ⟨[3]⟩, 10, 11, false, 12⟩]).systemAudioBuffer
      ≠ [] := by
  have h : (Renderer.run (MathFns.mk Real.sqrt Real.tanh Real.exp) (fun _ => some [0, 64])
        Platform.macOS
        [Event.systemAudioData ⟨"AEA=", 5⟩, Event.stopCapture,
          Event.startCapture ⟨true, true, none, some ⟨[3]⟩, 10, 11, false, 12⟩]).systemAudioBuffer
      = [⟨"AEA=", 5⟩] := rfl
  exact ⟨h, by rw [h]; simp⟩

/-- C12, amended: `systemAudioBuffer` is empty and `echoGain` is `0.5` when the module is
loaded; `startCapture`, `stopCapture` and the `session-state-changed` handler leave
`systemAudioBuffer` and `aecProcessor` as they are, so a session started after reference
arrivals and processed chunks, also after a `stopCapture`, starts with the buffer and the
`echoGain` these left. -/
theorem C12_start_keeps_audio_state (M : MathFns α) (atob : String → Option (List Nat))
    (platform : Platform) (r : Renderer α) (env : StartEnv) (isActive : Bool) :
    (Renderer.init : Renderer α).systemAudioBuffer = []
    ∧ (Renderer.init : Renderer α).aecProcessor.echoGain = some (1 / 2)
    ∧ (r.step M atob platform (Event.startCapture env)).systemAudioBuffer
        = r.systemAudioBuffer
    ∧ (r.step M atob platform (Event.startCapture env)).aecProcessor = r.aecProcessor
    ∧ ((r.step M atob platform Event.stopCapture).step M atob platform
        (Event.startCapture env)).systemAudioBuffer = r.systemAudioBuffer
    ∧ ((r.step M atob platform Event.stopCapture).step M atob platform
        (Event.startCapture env)).aecProcessor = r.aecProcessor
    ∧ (r.step M atob platform (Event.sessionStateChanged isActive)).systemAudioBuffer
        = r.systemAudioBuffer
    ∧ (r.step M atob platform (Event.sessionStateChanged isActive)).aecProcessor
        = r.aecProcessor := by
  refine ⟨rfl, rfl, rfl, rfl, rfl, rfl, ?_, ?_⟩ <;> cases isActive <;> rfl

end Sessions

/-! ## Malformed reference payloads -/

section Malformed

variable {α : Type} [LinearOrderedField α]

theorem onSystemAudioData_getLast (buf : List ReferenceEntry) (e : ReferenceEntry) :
    (onSystemAudioData buf e).getLast? = some e := by
  rw [onSystemAudioData_eq]
  unfold sliceLast MAX_SYSTEM_BUFFER_SIZE
  have : (buf ++ [e]).length - 10 ≤ buf.length := by simp
  rw [List.drop_append_of_le_length this]
  simp

theorem onSystemAudioData_length (buf : List ReferenceEntry) (e : ReferenceEntry) :
    (onSystemAudioData buf e).length = min (buf.length + 1) 10 := by
  rw [onSystemAudioData_eq, sliceLast_length]
  simp [MAX_SYSTEM_BUFFER_SIZE]

/-- The per-chunk step throws exactly when the buffer is non-empty and its latest entry
does not decode. -/
theorem micChunkStep_latest_malformed (M : MathFns α) (atob : String → Option (List Nat))
    (aec : SimpleAEC α) (buf : List ReferenceEntry) (e : ReferenceEntry)
    (chunk : List (JSNum α)) (hlast : buf.getLast? = some e)
    (hbad : base64ToFloat32Array (α := α) atob e.data = none) :
    micChunkStep M atob aec buf chunk = none := by
  have hne : buf.length > 0 := by
    cases buf with
    | nil => simp at hlast
    | cons b bs => simp
  unfold micChunkStep
  simp only [hne, if_true, hlast, hbad]

theorem micChunkStep_latest_decodes (M : MathFns α) (atob : String → Option (List Nat))
    (aec : SimpleAEC α) (buf : List ReferenceEntry) (e : ReferenceEntry)
    (chunk : List (JSNum α)) (f : List (JSNum α)) (hlast : buf.getLast? = some e)
    (hgood : base64ToFloat32Array (α := α) atob e.data = some f) :
    (micChunkStep M atob aec buf chunk).isSome = true := by
  have hne : buf.length > 0 := by
    cases buf with
    | nil => simp at hlast
    | cons b bs => simp
  unfold micChunkStep
  simp only [hne, if_true, hlast, hgood]
  split_ifs <;> rfl

/-- C13 as stated fails: a payload of one byte arriving at the empty buffer is stored,
and the per-chunk step on the next microphone chunk throws. -/
theorem C13_malformed_payload_is_stored :
    base64ToFloat32Array (α := ℝ) (fun _ => some [7]) "Bw==" = none
    ∧ onSystemAudioData [] ⟨"Bw==", 5⟩ = [⟨"Bw==", 5⟩]
    ∧ onSystemAudioData [] ⟨"Bw==", 5⟩ ≠ []
    ∧ micChunkStep (MathFns.mk Real.sqrt Real.tanh Real.exp) (fun _ => some [7])
        ⟨some (1 / 2)⟩ (onSystemAudioData [] ⟨"Bw==", 5⟩) [some (1 / 4)] = none := by
  refine ⟨rfl, rfl, by decide, rfl⟩

/-- C13, amended: the `system-audio-data` handler stores every payload undecoded, also a
malformed one: after the arrival the buffer is the last 10 entries of the old buffer with
the new entry appended, and the new entry is its latest.  Decoding happens in the
per-chunk step of `setupMicProcessing`: while a malformed payload is the latest entry the
step throws, so the handler pops the next microphone chunk, sends nothing, leaves
`aecProcessor` as it was and ends; once a payload that decodes has arrived after it, the
step no longer throws. -/
theorem C13_malformed_payload_breaks_next_chunk (M : MathFns α)
    (atob : String → Option (List Nat)) (buf : List ReferenceEntry) (e : ReferenceEntry)
    (aec : SimpleAEC α) (chunk : List (JSNum α)) (c : MicLoop α)
    (hbad : base64ToFloat32Array (α := α) atob e.data = none)
    (hfull : samplesPerChunk ≤ c.audioBuffer.length) :
    onSystemAudioData buf e = (buf ++ [e]).drop ((buf ++ [e]).length - 10)
    ∧ (onSystemAudioData buf e).getLast? = some e
    ∧ (onSystemAudioData buf e).length = min (buf.length + 1) 10
    ∧ micChunkStep M atob aec (onSystemAudioData buf e) chunk = none
    ∧ MicLoop.drain M atob (onSystemAudioData buf e) c
        = (⟨c.audioBuffer.drop samplesPerChunk, c.sent, c.aecProcessor⟩, true)
    ∧ (∀ (e2 : ReferenceEntry) (f : List (JSNum α)),
        base64ToFloat32Array (α := α) atob e2.data = some f →
        (micChunkStep M atob aec (onSystemAudioData (onSystemAudioData buf e) e2) chunk).isSome
          = true) := by
  have hstep : ∀ (a : SimpleAEC α) (ch : List (JSNum α)),
      micChunkStep M atob a (onSystemAudioData buf e) ch = none :=
    fun a ch => micChunkStep_latest_malformed M atob a _ e ch (onSystemAudioData_getLast buf e) hbad
  refine ⟨onSystemAudioData_eq buf e, onSystemAudioData_getLast buf e,
    onSystemAudioData_length buf e, hstep aec chunk, ?_, ?_⟩
  · rw [MicLoop.drain]
    simp only [hfull, if_true, hstep]
  · intro e2 f hgood
    exact micChunkStep_latest_decodes M atob aec _ e2 chunk f (onSystemAudioData_getLast _ e2) hgood

/-- C13, amended, at a concrete input: a one-byte payload arriving at the empty buffer,
and a pending buffer of 2400 zero samples. -/
theorem C13_malformed_payload_breaks_next_chunk_witness :
    base64ToFloat32Array (α := ℝ) (fun _ => some [7]) "Bw==" = none
    ∧ samplesPerChunk ≤ (List.replicate 2400 (some (0 : ℝ))).length
    ∧ MicLoop.drain (MathFns.mk Real.sqrt Real.tanh Real.exp) (fun _ => some [7])
        (onSystemAudioData [] ⟨"Bw==", 5⟩) ⟨List.replicate 2400 (some (0 : ℝ)), [], ⟨some (1 / 2)⟩⟩
      = (⟨(List.replicate 2400 (some (0 : ℝ))).drop samplesPerChunk, [], ⟨some (1 / 2)⟩⟩, true) :=
  ⟨rfl, by rw [List.length_replicate]; decide,
    (C13_malformed_payload_breaks_next_chunk (MathFns.mk Real.sqrt Real.tanh Real.exp)
      (fun _ => some [7]) [] ⟨"Bw==", 5⟩ ⟨some (1 / 2)⟩ []
      ⟨List.replicate 2400 (some (0 : ℝ)), [], ⟨some (1 / 2)⟩⟩ rfl
      (by rw [List.length_replicate]; decide)).2.2.2.2.1⟩

end Malformed

/-! ## Decoding and re-encoding a 16-bit sample -/

section RoundTrip

variable {α : Type} [LinearOrderedField α] [FloorRing α]

/-- C17: for a 16-bit signed integer `v`, `base64ToFloat32Array` decodes it to
`v / 32768`, which lies in `[-1, 1)`, and `convertFloat32ToInt16` encodes that sample as
`v` when `v ≤ 0` and as `v - 1` when `v > 0`. -/
theorem C17_int16_round_trip (v : Int) (hlo : -32768 ≤ v) (hhi : v ≤ 32767) :
    jsDiv (some (v : α)) (some 32768) = some ((v : α) / 32768)
    ∧ -1 ≤ (v : α) / 32768 ∧ (v : α) / 32768 < 1
    ∧ convertSample (jsDiv (some (v : α)) (some 32768)) = (if v ≤ 0 then v else v - 1)
    ∧ convertFloat32ToInt16 ([v].map (fun w : Int => jsDiv (some (w : α)) (some 32768)))
        = [if v ≤ 0 then v else v - 1] := by
  have h32 : (32768 : α) ≠ 0 := by norm_num
  have hloc : ((-32768 : Int) : α) ≤ (v : α) := by exact_mod_cast hlo
  have hhic : (v : α) ≤ ((32767 : Int) : α) := by exact_mod_cast hhi
  push_cast at hloc hhic
  have h1 : -1 ≤ (v : α) / 32768 := by
    rw [le_div_iff₀ (by norm_num)]; linarith
  have h2 : (v : α) / 32768 < 1 := by
    rw [div_lt_one (by norm_num)]; linarith
  have hclamp : max (-1) (min 1 ((v : α) / 32768)) = (v : α) / 32768 := by
    rw [min_eq_right h2.le, max_eq_right h1]
  have hconv : convertSample (jsDiv (some (v : α)) (some 32768))
      = (if v ≤ 0 then v else v - 1) := by
    rw [jsDiv_some _ _ h32, convertSample_some, hclamp]
    by_cases hv : v ≤ 0
    · rw [if_pos hv]
      have hvc : (v : α) ≤ 0 := by exact_mod_cast hv
      by_cases hneg : (v : α) / 32768 < 0
      · rw [if_pos hneg]
        have e : (v : α) / 32768 * 32768 = (v : α) := by field_simp
        rw [e]
        unfold jsTrunc
        have : ¬ (0 ≤ (v : α)) := by
          intro h0
          have : (0 : α) ≤ (v : α) / 32768 := div_nonneg h0 (by norm_num)
          exact absurd hneg (not_lt.mpr this)
        rw [if_neg this, Int.ceil_intCast]
      · rw [if_neg hneg]
        have hz : (v : α) = 0 := by
          have h0 : (0 : α) ≤ (v : α) / 32768 := not_lt.mp hneg
          have : (0 : α) ≤ (v : α) := by
            rw [le_div_iff₀ (by norm_num)] at h0; linarith
          exact le_antisymm hvc this
        have hv0 : v = 0 := by exact_mod_cast hz
        subst hv0
        simp [jsTrunc]
    · rw [if_neg hv]
      have hpos : 0 < v := not_le.mp hv
      have hposc : (0 : α) < (v : α) := by exact_mod_cast hpos
      have hnn : ¬ ((v : α) / 32768 < 0) := not_lt.mpr (div_nonneg hposc.le (by norm_num))
      rw [if_neg hnn]
      unfold jsTrunc
      have hnn2 : (0 : α) ≤ (v : α) / 32768 * 32767 :=
        mul_nonneg (div_nonneg hposc.le (by norm_num)) (by norm_num)
      rw [if_pos hnn2, Int.floor_eq_iff]
      have e : (v : α) / 32768 * 32767 = (v : α) - (v : α) / 32768 := by field_simp; ring
      rw [e]
      have hq0 : 0 < (v : α) / 32768 := div_pos hposc (by norm_num)
      constructor
      · push_cast; linarith
      · push_cast; linarith
  refine ⟨jsDiv_some _ _ h32, h1, h2, hconv, ?_⟩
  simp only [convertFloat32ToInt16, List.map_cons, List.map_nil, hconv]

/-- C17 at the concrete samples `12345` and `-12345`. -/
theorem C17_int16_round_trip_witness :
    (-32768 : Int) ≤ 12345 ∧ (12345 : Int) ≤ 32767
    ∧ convertSample (jsDiv (some (((12345 : Int) : ℚ))) (some 32768))
        = (if (12345 : Int) ≤ 0 then 12345 else 12345 - 1) :=
  ⟨by decide, by decide, (C17_int16_round_trip (α := ℚ) 12345 (by decide) (by decide)).2.2.2.1⟩

end RoundTrip

/-! ## Route dispatch on the conversations router -/

theorem dispatch_never_search (m : Method) (path : List String)
    (params : List (String × String)) :
    dispatch conversationsRoutes m path ≠ some (Handler.search, params) := by
  cases path with
  | nil => cases m <;> simp [dispatch, conversationsRoutes, matchPath]
  | cons x xs =>
    cases xs with
    | nil => cases m <;> simp [dispatch, conversationsRoutes, matchPath]
    | cons y ys => cases m <;> simp [dispatch, conversationsRoutes, matchPath]

/-- C18: a `GET` request for `/search` is dispatched to the session-detail handler
registered for `/:session_id`, with `session_id = "search"`; that handler answers 404
`Session not found` when the database has no session with the id `"search"` (and 500 when
the query throws); no request at all is dispatched to the search handler. -/
theorem C18_search_route_shadowed (db : Db) (m : Method) (path : List String)
    (params : List (String × String)) :
    dispatch conversationsRoutes Method.GET ["search"]
      = some (Handler.sessionDetail, [("session_id", "search")])
    ∧ (db.sessionById "search" = some none →
        sessionDetail db "search" = ⟨404, some "Session not found"⟩)
    ∧ (db.sessionById "search" = none →
        sessionDetail db "search" = ⟨500, some "Failed to retrieve session details"⟩)
    ∧ (sessionDetail db "search" = ⟨404, some "Session not found"⟩ →
        db.sessionById "search" = some none)
    ∧ dispatch conversationsRoutes m path ≠ some (Handler.search, params) := by
  refine ⟨by decide, ?_, ?_, ?_, dispatch_never_search m path params⟩
  · intro h
    simp [sessionDetail, h]
  · intro h
    simp [sessionDetail, h]
  · intro h
    unfold sessionDetail at h
    cases hs : db.sessionById "search" with
    | none => rw [hs] at h; simp at h
    | some o =>
      cases o with
      | none => rfl
      | some row =>
        rw [hs] at h
        simp only at h
        split at h <;> simp at h

/-! ## Conditional sums computed by the loops -/

section Sums

variable {α : Type} [LinearOrderedField α]

theorem jsIndex_map_some_getD (vs : List α) (k : Int) (h0 : 0 ≤ k)
    (h1 : k < (vs.length : Int)) :
    jsIndex (vs.map some) k = some (vs.getD k.toNat 0) := by
  have hk : k.toNat < vs.length := by omega
  unfold jsIndex
  rw [if_neg (not_lt.mpr h0), List.getD_eq_getElem _ _ (by simpa using hk),
    List.getD_eq_getElem _ _ hk]
  simp

/-- A loop that adds `f x` to a finite accumulator for the `x` that pass a test, and
leaves the accumulator alone for the others, computes the sum over the `x` that pass. -/
theorem foldl_cond_sum {β : Type} (F : JSNum α → β → JSNum α) (p : β → Bool) (f : β → α)
    (l : List β)
    (hF : ∀ (a : α) (x : β), x ∈ l → F (some a) x = if p x then some (a + f x) else some a)
    (a : α) :
    l.foldl F (some a) = some (a + ((l.filter p).map f).sum) := by
  induction l generalizing a with
  | nil => simp
  | cons x l ih =>
    rw [List.foldl_cons, hF a x (List.mem_cons_self _ _)]
    have ih2 := fun b => ih (fun a y hy => hF a y (List.mem_cons_of_mem _ hy)) b
    by_cases hp : p x = true
    · rw [if_pos hp, ih2, List.filter_cons_of_pos hp, List.map_cons, List.sum_cons, add_assoc]
    · rw [if_neg hp, ih2, List.filter_cons_of_neg hp]

/-- The loop of `isSimilarToSystem` on a sample and a reference of numbers. -/
theorem isSimilarToSystem_eq (s : α) (reference : List α) (index delay : Nat) :
    isSimilarToSystem (some s) (reference.map some) index delay
      = decide (sumAbsDiff s reference index delay / 101 < 15 / 100) := by
  have hsum : similarityWindow.foldl
      (fun (acc : JSNum α) i =>
        if 0 ≤ (index : Int) - (delay : Int) + i
            ∧ (index : Int) - (delay : Int) + i < ((reference.map some).length : Int) then
          jsAdd acc (jsAbs (jsSub (some s)
            (jsIndex (reference.map some) ((index : Int) - (delay : Int) + i))))
        else acc)
      (some 0)
      = some (0 + ((similarityWindow.filter
          (fun i => decide (0 ≤ (index : Int) - (delay : Int) + i)
            && decide ((index : Int) - (delay : Int) + i < (reference.length : Int)))).map
          (fun i => |s - reference.getD ((index : Int) - (delay : Int) + i).toNat 0|)).sum) := by
    apply foldl_cond_sum
    intro a i _
    by_cases hc : 0 ≤ (index : Int) - (delay : Int) + i
        ∧ (index : Int) - (delay : Int) + i < (reference.length : Int)
    · have hc2 : 0 ≤ (index : Int) - (delay : Int) + i
          ∧ (index : Int) - (delay : Int) + i < ((reference.map some).length : Int) := by
        simpa using hc
      rw [if_pos hc2, jsIndex_map_some_getD _ _ hc.1 hc.2]
      simp [hc.1, hc.2]
    · have hc2 : ¬ (0 ≤ (index : Int) - (delay : Int) + i
          ∧ (index : Int) - (delay : Int) + i < ((reference.map some).length : Int)) := by
        simpa using hc
      rw [if_neg hc2]
      have : (decide (0 ≤ (index : Int) - (delay : Int) + i)
          && decide ((index : Int) - (delay : Int) + i < (reference.length : Int))) = false := by
        simpa using hc
      rw [this]
      simp
  have hspec : sumAbsDiff s reference index delay
      = ((similarityWindow.filter
          (fun i => decide (0 ≤ (index : Int) - (delay : Int) + i)
            && decide ((index : Int) - (delay : Int) + i < (reference.length : Int)))).map
          (fun i => |s - reference.getD ((index : Int) - (delay : Int) + i).toNat 0|)).sum := by
    unfold sumAbsDiff windowPositions
    rw [List.filter_map, List.map_map]
    rfl
  unfold isSimilarToSystem
  simp only [hsum, zero_add]
  rw [hspec, jsDiv_some _ _ (by norm_num : (2 * 50 + 1 : α) ≠ 0), jsLt_some]
  norm_num

/-- C16, amended: on a sample and a reference of numbers `isSimilarToSystem` is true
exactly when the sum of `|s - reference[j]|` over the positions `j` of the window
`i - D - 50 .. i - D + 50` that lie inside the reference, divided by the full window
length 101, is below `0.15`.  Positions outside the reference add nothing to the sum and
the divisor stays 101: when every position is inside, the quotient is the mean over the
window, and when none is, the result is true. -/
theorem C16_similarity_divides_by_window_length (s : α) (reference : List α)
    (index delay : Nat) :
    (isSimilarToSystem (some s) (reference.map some) index delay = true
      ↔ sumAbsDiff s reference index delay / 101 < 15 / 100)
    ∧ ((windowPositions reference.length index delay).length = 101 →
        (isSimilarToSystem (some s) (reference.map some) index delay = true
          ↔ sumAbsDiff s reference index delay
              / ((windowPositions reference.length index delay).length : α) < 15 / 100))
    ∧ (windowPositions reference.length index delay = [] →
        isSimilarToSystem (some s) (reference.map some) index delay = true) := by
  have h := isSimilarToSystem_eq s reference index delay
  refine ⟨by rw [h, decide_eq_true_iff], ?_, ?_⟩
  · intro hlen
    rw [h, decide_eq_true_iff, hlen]
    norm_num
  · intro hnil
    rw [h, decide_eq_true_iff]
    unfold sumAbsDiff
    rw [hnil]
    norm_num

end Sums

/-- C16 as stated fails: for the sample `1`, the reference `[0]`, index `0` and delay `0`
the window has one position inside the reference, the mean of `|s - reference[j]|` over it
is `1`, not below `0.15`, and `isSimilarToSystem` is true (it compares `1 / 101`). -/
theorem C16_edge_window_is_not_a_mean :
    isSimilarToSystem (some (1 : ℚ)) [some 0] 0 0 = true
    ∧ windowPositions 1 0 0 = [0]
    ∧ sumAbsDiff (1 : ℚ) [0] 0 0 / ((windowPositions 1 0 0).length : ℚ) = 1
    ∧ ¬ (sumAbsDiff (1 : ℚ) [0] 0 0 / ((windowPositions 1 0 0).length : ℚ) < 15 / 100) := by
  have hw : windowPositions 1 0 0 = [0] := by decide
  have hs : sumAbsDiff (1 : ℚ) [0] 0 0 = 1 := by
    unfold sumAbsDiff
    rw [List.length_singleton, hw]
    norm_num
  have e : ([some 0] : List (JSNum ℚ)) = ([0] : List ℚ).map some := rfl
  refine ⟨?_, hw, ?_, ?_⟩
  · rw [e, isSimilarToSystem_eq, hs, decide_eq_true_iff]
    norm_num
  · rw [hs, hw]; norm_num
  · rw [hs, hw]; norm_num

/-! ## The output sample of `process` in closed form -/

section ClosedForm

variable {α : Type} [LinearOrderedField α]

theorem softLimit_eq_spec (M : MathFns α) (x : α) :
    softLimit M (some x) = some (softLimitSpec M x) := by
  unfold softLimit softLimitSpec
  simp only [jsGt_some, jsLt_some]
  by_cases h1 : (98 / 100 : α) < x
  · have e : max (-(98 / 100)) (min (98 / 100) x) = (98 / 100 : α) := by
      rw [min_eq_left h1.le, max_eq_right (by norm_num)]
    simp only [h1, decide_True, if_true, jsMul_some, jsTanh, e, mul_comm]
  · by_cases h2 : x < -(98 / 100 : α)
    · have e : max (-(98 / 100)) (min (98 / 100) x) = (-(98 / 100) : α) := by
        rw [min_eq_right (not_lt.mp h1), max_eq_left h2.le]
      simp only [h1, h2, decide_True, decide_False, Bool.false_eq_true, if_true, if_false,
        jsMul_some, jsTanh, e, mul_comm]
    · have e : max (-(98 / 100)) (min (98 / 100) x) = x := by
        rw [min_eq_right (not_lt.mp h1), max_eq_right (not_lt.mp h2)]
      simp only [h1, h2, decide_False, Bool.false_eq_true, if_false, jsMul_some, jsTanh, e,
        mul_comm]

theorem map_softLimit_eq_spec (M : MathFns α) (r : List α) :
    (r.map some).map (softLimit M) = (r.map (softLimitSpec M)).map some := by
  induction r with
  | nil => rfl
  | cons x r ih =>
    simp only [List.map_cons, softLimit_eq_spec, ih]

theorem referenceScale_eq_spec (M : MathFns α) (hs0 : ∀ x, 0 ≤ x → 0 ≤ M.sqrt x)
    (r' : List α) (h : r' ≠ []) :
    referenceScale M (r'.map some) = some (scaleSpec M r')
    ∧ rms M r' + 1 / 1000000 ≠ 0 := by
  obtain ⟨h1, h2⟩ := referenceScale_some M hs0 r' h
  exact ⟨h1, h2⟩

theorem echoEstimate_eq_spec (M : MathFns α) (r' : List α) (s g : α) (D i : Nat) :
    echoEstimate M (r'.map some) (some s) (some g) D i = some (echoSpec M r' s g D i) := by
  have h : echoTaps.foldl
      (fun (acc : JSNum α) d =>
        if 0 ≤ (i : Int) - (D : Int) - d
            ∧ (i : Int) - (D : Int) - d < ((r'.map some).length : Int) then
          jsAdd acc (jsMul (jsMul (jsMul (jsIndex (r'.map some) ((i : Int) - (D : Int) - d))
            (some s)) (some g)) (jsExp M (jsDiv (jsNeg (jsAbs (some (d : α)))) (some 1000))))
        else acc)
      (some 0)
      = some (0 + ((echoTaps.filter
          (fun d => decide (0 ≤ (i : Int) - (D : Int) - d)
            && decide ((i : Int) - (D : Int) - d < (r'.length : Int)))).map
          (fun d => r'.getD ((i : Int) - (D : Int) - d).toNat 0 * s * g
            * M.exp (-|(d : α)| / 1000))).sum) := by
    apply foldl_cond_sum
    intro a d _
    by_cases hc : 0 ≤ (i : Int) - (D : Int) - d ∧ (i : Int) - (D : Int) - d < (r'.length : Int)
    · have hc2 : 0 ≤ (i : Int) - (D : Int) - d
          ∧ (i : Int) - (D : Int) - d < ((r'.map some).length : Int) := by
        simpa using hc
      rw [if_pos hc2, jsIndex_map_some_getD _ _ hc.1 hc.2]
      simp only [jsAbs_some, jsNeg_some, jsDiv_some _ _ (show (1000 : α) ≠ 0 by norm_num), jsExp,
        jsMul_some, jsAdd_some, hc.1, hc.2, decide_True, Bool.and_self, if_true]
    · have hc2 : ¬ (0 ≤ (i : Int) - (D : Int) - d
          ∧ (i : Int) - (D : Int) - d < ((r'.map some).length : Int)) := by
        simpa using hc
      rw [if_neg hc2]
      have : (decide (0 ≤ (i : Int) - (D : Int) - d)
          && decide ((i : Int) - (D : Int) - d < (r'.length : Int))) = false := by
        simpa using hc
      rw [this]
      simp
  unfold echoEstimate
  simp only [h, zero_add]
  rfl

theorem outputSample_eq_spec (M : MathFns α) (m r' : List α) (s g : α) (D i : Nat)
    (hi : i < m.length) :
    outputSample M (m.map some) (r'.map some) (some s) (some g) D i
      = some (max (-1) (min 1
          (if isSimilarToSystem (some (noiseFloorSpec (m.getD i 0 - 9 / 10 * echoSpec M r' s g D i)))
              (r'.map some) i D
            then noiseFloorSpec (m.getD i 0 - 9 / 10 * echoSpec M r' s g D i) / 4
            else noiseFloorSpec (m.getD i 0 - 9 / 10 * echoSpec M r' s g D i)))) := by
  have hm : jsIndex (m.map some) (i : Int) = some (m.getD i 0) := by
    have := jsIndex_map_some_getD m (i : Int) (by omega) (by omega)
    simpa using this
  have hc : m.getD i 0 - echoSpec M r' s g D i * (9 / 10)
      = m.getD i 0 - 9 / 10 * echoSpec M r' s g D i := by ring
  unfold outputSample
  simp only [hm, echoEstimate_eq_spec, jsMul_some, jsSub_some, jsAbs_some, noiseFloor,
    jsLt_some, hc]
  have hh : (if decide (|m.getD i 0 - 9 / 10 * echoSpec M r' s g D i| < 1 / 100) = true
        then some ((m.getD i 0 - 9 / 10 * echoSpec M r' s g D i) * (1 / 2))
        else some (m.getD i 0 - 9 / 10 * echoSpec M r' s g D i))
      = some (noiseFloorSpec (m.getD i 0 - 9 / 10 * echoSpec M r' s g D i)) := by
    unfold noiseFloorSpec
    by_cases hlt : |m.getD i 0 - 9 / 10 * echoSpec M r' s g D i| < 1 / 100
    · simp only [hlt, decide_True, if_true]
      congr 1
      ring
    · simp only [hlt, decide_False, Bool.false_eq_true, if_false]
  rw [hh]
  split_ifs
  · simp only [jsMul_some, jsMin_some, jsMax_some]
    congr 3
    ring
  · simp only [jsMin_some, jsMax_some]

theorem process_output_eq_spec (M : MathFns α) (hs0 : ∀ x, 0 ≤ x → 0 ≤ M.sqrt x)
    (m r : List α) (g : α) (hr : r ≠ []) :
    (SimpleAEC.process M ⟨some g⟩ (m.map some) (some (r.map some))).1
      = (List.range m.length).map (fun j => some (outputSpec M m r g j)) := by
  have hr' : r.map (softLimitSpec M) ≠ [] := by simpa using hr
  obtain ⟨hscale, _⟩ := referenceScale_eq_spec M hs0 (r.map (softLimitSpec M)) hr'
  have hnz : ¬ (r.length = 0) := by simpa using hr
  unfold SimpleAEC.process
  simp only [List.length_map, hnz, if_false, map_softLimit_eq_spec, hscale]
  apply List.map_congr_left
  intro j hj
  rw [outputSample_eq_spec M m _ _ g _ j (List.mem_range.mp hj)]
  rfl

theorem abs_clamp_unit_le (q : α) : |max (-1) (min 1 q)| ≤ |q| := by
  rcases le_total q 0 with h | h
  · have h1 : min 1 q = q := min_eq_right (by linarith)
    rw [h1, abs_of_nonpos h, abs_of_nonpos (max_le (by norm_num) h)]
    have := le_max_right (-1 : α) q
    linarith
  · have h0 : 0 ≤ min 1 q := le_min (by norm_num) h
    rw [max_eq_right (by linarith), abs_of_nonneg h0, abs_of_nonneg h]
    exact min_le_right _ _

theorem abs_noiseFloorSpec_le (c : α) : |noiseFloorSpec c| ≤ |c| := by
  unfold noiseFloorSpec
  split_ifs
  · rw [abs_div, abs_of_pos (by norm_num : (0 : α) < 2)]
    have := abs_nonneg c
    linarith
  · exact le_refl _

theorem abs_outputSpec_le (M : MathFns α) (m r : List α) (g : α) (i : Nat) :
    |outputSpec M m r g i| ≤ |candidateSpec M m r g i| := by
  unfold outputSpec
  refine le_trans (abs_clamp_unit_le _) ?_
  have hh := abs_noiseFloorSpec_le (candidateSpec M m r g i)
  split_ifs
  · rw [abs_div, abs_of_pos (by norm_num : (0 : α) < 4)]
    have := abs_nonneg (noiseFloorSpec (candidateSpec M m r g i))
    linarith
  · exact hh

/-- C14: for a non-empty reference `r`, a microphone frame `m`, a gain `g` (all numbers)
and an index `i < len(m)`, the output sample of `process` is `clamp(q, -1, 1)`, where,
with `r'[j] = tanh(4 * clamp(r[j], -0.98, 0.98))`, `scale = 0.08 / (rms(r') + 1e-6)` and
`D = findOptimalDelay(m, r')`, `c` is `m[i]` minus `0.9` times the sum over the taps `d`
of `-500, -400, ..., 500` with `0 ≤ i - D - d < len(r)` of
`r'[i - D - d] * scale * g * exp(-|d| / 1000)`, `h = c / 2` if `|c| < 0.01` else `c`, and
`q = h / 4` if `isSimilarToSystem` holds of `h` else `h`; hence `|output[i]| ≤ |c|`, and
the divisor `rms(r') + 1e-6` is not zero.  (`Math.sqrt` is taken to be non-negative.) -/
theorem C14_output_sample_formula (M : MathFns α) (hs0 : ∀ x, 0 ≤ x → 0 ≤ M.sqrt x)
    (m r : List α) (g : α) (i : Nat) (hr : r ≠ []) (hi : i < m.length) :
    (SimpleAEC.process M ⟨some g⟩ (m.map some) (some (r.map some))).1
      = (List.range m.length).map (fun j => some (outputSpec M m r g j))
    ∧ jsIndex (SimpleAEC.process M ⟨some g⟩ (m.map some) (some (r.map some))).1 (i : Int)
      = some (outputSpec M m r g i)
    ∧ candidateSpec M m r g i
      = m.getD i 0 - 9 / 10
          * ((tapsInRange r.length
                (findOptimalDelay (m.map some) ((r.map (softLimitSpec M)).map some)) i).map
              (fun d => (r.map (softLimitSpec M)).getD
                  ((i : Int)
                    - (findOptimalDelay (m.map some) ((r.map (softLimitSpec M)).map some) : Int)
                    - d).toNat 0
                * (8 / 100 / (rms M (r.map (softLimitSpec M)) + 1 / 1000000)) * g
                * M.exp (-|(d : α)| / 1000))).sum
    ∧ |outputSpec M m r g i| ≤ |candidateSpec M m r g i|
    ∧ rms M (r.map (softLimitSpec M)) + 1 / 1000000 ≠ 0 := by
  have hr' : r.map (softLimitSpec M) ≠ [] := by simpa using hr
  have hout := process_output_eq_spec M hs0 m r g hr
  refine ⟨hout, ?_, ?_, abs_outputSpec_le M m r g i,
    (referenceScale_eq_spec M hs0 _ hr').2⟩
  · rw [hout]
    unfold jsIndex
    have h0 : ¬ ((i : Int) < 0) := by omega
    rw [if_neg h0, Int.toNat_ofNat, List.getD_eq_getElem _ _ (by simpa using hi)]
    simp
  · unfold candidateSpec echoSpec scaleSpec
    rw [List.length_map]

/-- C14 at a concrete input with the real `sqrt`, `tanh` and `exp`. -/
theorem C14_output_sample_formula_witness :
    (∀ x : ℝ, 0 ≤ x → 0 ≤ Real.sqrt x)
    ∧ ([1 / 4] : List ℝ) ≠ [] ∧ 1 < ([3, -1 / 2] : List ℝ).length
    ∧ jsIndex (SimpleAEC.process (MathFns.mk Real.sqrt Real.tanh Real.exp) ⟨some (1 / 2)⟩
        (([3, -1 / 2] : List ℝ).map some) (some (([1 / 4] : List ℝ).map some))).1 ((1 : Nat) : Int)
      = some (outputSpec (MathFns.mk Real.sqrt Real.tanh Real.exp) [3, -1 / 2] [1 / 4] (1 / 2) 1) :=
  ⟨fun x _ => Real.sqrt_nonneg x, by simp, by simp,
    (C14_output_sample_formula (MathFns.mk Real.sqrt Real.tanh Real.exp)
      (fun x _ => Real.sqrt_nonneg x) [3, -1 / 2] [1 / 4] (1 / 2) 1 (by simp) (by simp)).2.1⟩

end ClosedForm

/-! ## `findOptimalDelay` as an argmax over the candidate grid -/

section Argmax

variable {α : Type} [LinearOrderedField α]

theorem correlation_foldl (mic ref : List α) (d : Nat) (l : List Nat)
    (hl : ∀ i ∈ l, i < mic.length) (a : α) (c : Nat) :
    l.foldl
      (fun (acc : JSNum α × Nat) i =>
        if i + d < (ref.map some).length then
          (jsAdd acc.1 (jsMul (jsIndex (mic.map some) (i : Int))
            (jsIndex (ref.map some) ((i + d : Nat) : Int))), acc.2 + 1)
        else acc)
      (some a, c)
      = (some (a + ((l.filter (fun i => decide (i + d < ref.length))).map
            (fun i => mic.getD i 0 * ref.getD (i + d) 0)).sum),
          c + (l.filter (fun i => decide (i + d < ref.length))).length) := by
  induction l generalizing a c with
  | nil => simp
  | cons i l ih =>
    rw [List.foldl_cons]
    have ih2 := ih (fun j hj => hl j (List.mem_cons_of_mem _ hj))
    have hi : i < mic.length := hl i (List.mem_cons_self _ _)
    by_cases hc : i + d < ref.length
    · have hc2 : i + d < (ref.map some).length := by simpa using hc
      have hm : jsIndex (mic.map some) (i : Int) = some (mic.getD i 0) := by
        have := jsIndex_map_some_getD mic (i : Int) (by omega) (by omega)
        simpa using this
      have hr : jsIndex (ref.map some) ((i + d : Nat) : Int) = some (ref.getD (i + d) 0) := by
        have := jsIndex_map_some_getD ref ((i + d : Nat) : Int) (by omega) (by omega)
        simpa using this
      rw [if_pos hc2, hm, hr, jsMul_some, jsAdd_some, ih2,
        List.filter_cons_of_pos (by simpa using hc), List.map_cons, List.sum_cons,
        List.length_cons]
      congr 1
      · congr 1; ring
      · omega
    · have hc2 : ¬ (i + d < (ref.map some).length) := by simpa using hc
      rw [if_neg hc2, ih2, List.filter_cons_of_neg (by simpa using hc)]

theorem correlationAt_eq_spec (mic ref : List α) (d : Nat) :
    correlationAt (mic.map some) (ref.map some) d
      = (some (((corrIndices mic.length ref.length d).map
            (fun i => mic.getD i 0 * ref.getD (i + d) 0)).sum),
          (corrIndices mic.length ref.length d).length) := by
  have h := correlation_foldl mic ref d (List.range (min 500 mic.length)) (fun i hi => by
    have := List.mem_range.mp hi
    exact lt_of_lt_of_le this (Nat.min_le_right _ _)) 0 0
  unfold correlationAt corrIndices
  simp only [List.length_map] at h ⊢
  rw [h]
  simp

omit [LinearOrderedField α] in
theorem takeWhile_eq_filter_of_sorted (p : Nat → Bool) (l : List Nat)
    (hs : l.Pairwise (fun a b => a < b)) (hp : ∀ a b, a < b → p b = true → p a = true) :
    l.takeWhile p = l.filter p := by
  induction l with
  | nil => rfl
  | cons a l ih =>
    obtain ⟨h1, h2⟩ := List.pairwise_cons.mp hs
    by_cases ha : p a = true
    · rw [List.takeWhile_cons_of_pos ha, List.filter_cons_of_pos ha, ih h2]
    · rw [List.takeWhile_cons_of_neg ha, List.filter_cons_of_neg ha]
      symm
      rw [List.filter_eq_nil_iff]
      intro b hb hpb
      exact ha (hp a b (h1 b hb) hpb)

omit [LinearOrderedField α] in
/-- The candidate delays are the multiples of 200 below 5000 and below the reference
length. -/
theorem mem_delayCandidates (len d : Nat) :
    d ∈ delayCandidates len ↔ (200 ∣ d ∧ d < 5000 ∧ d < len) := by
  unfold delayCandidates
  rw [takeWhile_eq_filter_of_sorted]
  · simp only [List.mem_filter, List.mem_map, List.mem_range, Bool.and_eq_true,
      decide_eq_true_eq]
    constructor
    · rintro ⟨⟨k, _, rfl⟩, h1, h2⟩
      exact ⟨Dvd.intro k rfl, h1, h2⟩
    · rintro ⟨⟨k, rfl⟩, h1, h2⟩
      exact ⟨⟨k, by omega, rfl⟩, h1, h2⟩
  · decide
  · intro a b hab hb
    simp only [Bool.and_eq_true, decide_eq_true_eq] at hb ⊢
    omega

theorem absMeanCorr_nonneg (mic ref : List α) (d : Nat) : 0 ≤ absMeanCorr mic ref d :=
  abs_nonneg _

/-- One pass of the outer loop of `findOptimalDelay` on frames of numbers. -/
theorem delayStep_eq_spec (mic ref : List α) (v : α) (D d : Nat) (hv : 0 ≤ v) :
    delayStep (mic.map some) (ref.map some) (some v, D) d
      = if v < absMeanCorr mic ref d then (some (absMeanCorr mic ref d), d) else (some v, D) := by
  unfold delayStep
  rw [correlationAt_eq_spec]
  by_cases hpos : (corrIndices mic.length ref.length d).length > 0
  · have hne : (((corrIndices mic.length ref.length d).length : Nat) : α) ≠ 0 := by
      exact_mod_cast (Nat.pos_iff_ne_zero.mp hpos)
    simp only [hpos, if_true, jsDiv_some _ _ hne, jsAbs_some, jsGt_some]
    unfold absMeanCorr
    by_cases hlt : v < |((corrIndices mic.length ref.length d).map
        (fun i => mic.getD i 0 * ref.getD (i + d) 0)).sum
        / ((corrIndices mic.length ref.length d).length : α)|
    · simp only [hlt, decide_True, if_true]
    · simp only [hlt, decide_False, Bool.false_eq_true, if_false]
  · have hz : (corrIndices mic.length ref.length d).length = 0 := by omega
    have hs : absMeanCorr mic ref d = 0 := by
      unfold absMeanCorr
      rw [hz]
      simp
    simp only [hpos, if_false, hs, not_lt.mpr hv]

/-- The outer loop of `findOptimalDelay` keeps the largest score seen, and the first delay
that reached it. -/
theorem foldl_delayStep_argmax (mic ref : List α) (l : List Nat) (v : α) (D : Nat)
    (hv : 0 ≤ v) :
    ∃ (v' : α) (D' : Nat),
      l.foldl (delayStep (mic.map some) (ref.map some)) (some v, D) = (some v', D')
      ∧ v ≤ v'
      ∧ (∀ d ∈ l, absMeanCorr mic ref d ≤ v')
      ∧ ((v' = v ∧ D' = D) ∨ (D' ∈ l ∧ v' = absMeanCorr mic ref D' ∧ v < v')) := by
  induction l generalizing v D with
  | nil => exact ⟨v, D, rfl, le_refl v, by simp, Or.inl ⟨rfl, rfl⟩⟩
  | cons d l ih =>
    rw [List.foldl_cons, delayStep_eq_spec mic ref v D d hv]
    by_cases hlt : v < absMeanCorr mic ref d
    · rw [if_pos hlt]
      obtain ⟨v', D', h1, h2, h3, h4⟩ := ih (absMeanCorr mic ref d) d (absMeanCorr_nonneg _ _ _)
      refine ⟨v', D', h1, le_trans hlt.le h2, ?_, Or.inr ?_⟩
      · intro x hx
        rcases List.mem_cons.mp hx with hx | hx
        · rw [hx]; exact h2
        · exact h3 x hx
      · rcases h4 with ⟨e1, e2⟩ | ⟨m1, m2, m3⟩
        · refine ⟨by rw [e2]; exact List.mem_cons_self _ _, by rw [e1, e2], by rw [e1]; exact hlt⟩
        · exact ⟨List.mem_cons_of_mem _ m1, m2, lt_trans hlt m3⟩
    · rw [if_neg hlt]
      obtain ⟨v', D', h1, h2, h3, h4⟩ := ih v D hv
      refine ⟨v', D', h1, h2, ?_, ?_⟩
      · intro x hx
        rcases List.mem_cons.mp hx with hx | hx
        · rw [hx]; exact le_trans (not_lt.mp hlt) h2
        · exact h3 x hx
      · rcases h4 with h4 | ⟨m1, m2, m3⟩
        · exact Or.inl h4
        · exact Or.inr ⟨List.mem_cons_of_mem _ m1, m2, m3⟩

theorem findOptimalDelay_argmax (mic ref : List α) :
    (findOptimalDelay (mic.map some) (ref.map some) = delaySamples
      ∧ ∀ d ∈ delayCandidates ref.length, absMeanCorr mic ref d = 0)
    ∨ (findOptimalDelay (mic.map some) (ref.map some) ∈ delayCandidates ref.length
      ∧ 0 < absMeanCorr mic ref (findOptimalDelay (mic.map some) (ref.map some))
      ∧ ∀ d ∈ delayCandidates ref.length,
          absMeanCorr mic ref d
            ≤ absMeanCorr mic ref (findOptimalDelay (mic.map some) (ref.map some))) := by
  obtain ⟨v', D', h1, _, h3, h4⟩ :=
    foldl_delayStep_argmax mic ref (delayCandidates ref.length) 0 delaySamples (le_refl 0)
  have hD : findOptimalDelay (mic.map some) (ref.map some) = D' := by
    unfold findOptimalDelay
    rw [List.length_map, h1]
  rw [hD]
  rcases h4 with ⟨e1, e2⟩ | ⟨m1, m2, m3⟩
  · left
    refine ⟨e2, fun d hd => le_antisymm ?_ (absMeanCorr_nonneg _ _ _)⟩
    rw [← e1]
    exact h3 d hd
  · right
    refine ⟨m1, by rw [← m2]; exact m3, fun d hd => ?_⟩
    rw [← m2]
    exact h3 d hd

/-- C15, amended: on frames of numbers `findOptimalDelay` returns either a candidate delay
(a multiple of 200 below 5000 and below the reference length) whose absolute mean
correlation is positive and not exceeded by any candidate, or, when every candidate has
absolute mean correlation `0`, the default `delaySamples = 2400`, which need not be below
the reference length. -/
theorem C15_argmax_or_default (mic ref : List α) :
    (∀ d, d ∈ delayCandidates ref.length ↔ (200 ∣ d ∧ d < 5000 ∧ d < ref.length))
    ∧ ((findOptimalDelay (mic.map some) (ref.map some) = 2400
        ∧ ∀ d ∈ delayCandidates ref.length, absMeanCorr mic ref d = 0)
      ∨ (findOptimalDelay (mic.map some) (ref.map some) ∈ delayCandidates ref.length
        ∧ 0 < absMeanCorr mic ref (findOptimalDelay (mic.map some) (ref.map some))
        ∧ ∀ d ∈ delayCandidates ref.length,
            absMeanCorr mic ref d
              ≤ absMeanCorr mic ref (findOptimalDelay (mic.map some) (ref.map some)))) :=
  ⟨fun d => mem_delayCandidates ref.length d, findOptimalDelay_argmax mic ref⟩

end Argmax

/-- C15 as stated fails: for the microphone frame `[0]` and the reference `[1]` the only
candidate is `0`, its correlation is `0`, and `findOptimalDelay` returns the default 2400,
which is not below the reference length and not a candidate. -/
theorem C15_default_is_not_a_candidate :
    findOptimalDelay [some (0 : ℚ)] [some 1] = 2400
    ∧ delayCandidates ([some (1 : ℚ)] : List (JSNum ℚ)).length = [0]
    ∧ ¬ (findOptimalDelay [some (0 : ℚ)] [some 1] < ([some (1 : ℚ)] : List (JSNum ℚ)).length)
    ∧ findOptimalDelay [some (0 : ℚ)] [some 1]
        ∉ delayCandidates ([some (1 : ℚ)] : List (JSNum ℚ)).length := by
  have h : findOptimalDelay [some (0 : ℚ)] [some 1] = 2400 := by
    apply findOptimalDelay_zero_prefix
    intro i hi
    have hi0 : i = 0 := by
      have : i < 1 := lt_of_lt_of_le hi (Nat.min_le_right _ _)
      omega
    subst hi0
    simp [jsIndex]
  have hc : delayCandidates ([some (1 : ℚ)] : List (JSNum ℚ)).length = [0] := by decide
  refine ⟨h, hc, ?_, ?_⟩
  · rw [h]; decide
  · rw [h, hc]; decide

/-! ## Chunking loops: proofs -/

theorem Chunker.fullChunks_push {β : Type} (c : Chunker β)
    (hle : samplesPerChunk ≤ c.audioBuffer.length) (hc : c.FullChunks) :
    Chunker.FullChunks
      ⟨c.audioBuffer.drop samplesPerChunk, c.emitted ++ [c.audioBuffer.take samplesPerChunk]⟩ := by
  unfold Chunker.FullChunks at hc ⊢
  simp only [List.map_append, List.map_cons, List.map_nil, List.length_append,
    List.length_singleton, List.length_take, hc, Nat.min_eq_left hle]
  rw [List.replicate_add]
  rfl

/-- What the chunking loop does whatever the outcome of the sends, and what it reaches
when every send resolves. -/
theorem Chunker.drain_spec {β : Type} (resolves : Nat → Bool) (c : Chunker β)
    (hc : c.FullChunks) :
    (Chunker.drain resolves c).emitted.flatten ++ (Chunker.drain resolves c).audioBuffer
        = c.emitted.flatten ++ c.audioBuffer
    ∧ (Chunker.drain resolves c).FullChunks
    ∧ ((∀ k, resolves k = true) →
        (Chunker.drain resolves c).audioBuffer.length < samplesPerChunk) := by
  have hpos : 0 < samplesPerChunk := by decide
  generalize h : c.audioBuffer.length = n
  induction n using Nat.strong_induction_on generalizing c with
  | _ n ih =>
    rw [Chunker.drain]
    by_cases hle : samplesPerChunk ≤ c.audioBuffer.length
    · have hfull := Chunker.fullChunks_push c hle hc
      have hcat : (c.emitted ++ [c.audioBuffer.take samplesPerChunk]).flatten
          ++ c.audioBuffer.drop samplesPerChunk = c.emitted.flatten ++ c.audioBuffer := by
        simp [List.flatten_append, List.append_assoc]
      by_cases hr : resolves c.emitted.length = true
      · simp only [hle, if_true, hr]
        have hlt : (c.audioBuffer.drop samplesPerChunk).length < n := by
          simp only [List.length_drop]; omega
        obtain ⟨h1, h2, h3⟩ := ih _ hlt _ hfull rfl
        exact ⟨by rw [h1]; exact hcat, h2, h3⟩
      · simp only [hle, if_true, hr, Bool.false_eq_true, if_false]
        exact ⟨hcat, hfull, fun hall => absurd (hall _) hr⟩
    · simp only [hle, if_false]
      exact ⟨by trivial, hc, fun _ => by omega⟩

theorem Chunker.run_spec {β : Type} (resolves : Nat → Bool) (blocks : List (List β))
    (c : Chunker β) (hc : c.FullChunks) :
    (blocks.foldl (Chunker.onaudioprocess resolves) c).emitted.flatten
        ++ (blocks.foldl (Chunker.onaudioprocess resolves) c).audioBuffer
      = c.emitted.flatten ++ c.audioBuffer ++ blocks.flatten
    ∧ (blocks.foldl (Chunker.onaudioprocess resolves) c).FullChunks
    ∧ ((∀ k, resolves k = true) → blocks ≠ [] →
        (blocks.foldl (Chunker.onaudioprocess resolves) c).audioBuffer.length
          < samplesPerChunk) := by
  induction blocks generalizing c with
  | nil => simp [hc]
  | cons b bs ih =>
    obtain ⟨d1, d2, d3⟩ := Chunker.drain_spec resolves ⟨c.audioBuffer ++ b, c.emitted⟩ hc
    obtain ⟨i1, i2, i3⟩ := ih (Chunker.onaudioprocess resolves c b) d2
    simp only [List.foldl_cons]
    refine ⟨?_, i2, fun hall _ => ?_⟩
    · rw [i1]
      unfold Chunker.onaudioprocess
      rw [d1]
      simp [List.append_assoc]
    · by_cases hbs : bs = []
      · subst hbs
        exact d3 hall
      · exact i3 hall hbs

theorem length_flatten_of_full {β : Type} (xss : List (List β)) (n : Nat)
    (h : xss.map List.length = List.replicate xss.length n) :
    xss.flatten.length = xss.length * n := by
  rw [List.length_flatten, h]
  simp

theorem Chunker.drain_reject {β : Type} (resolves : Nat → Bool) (c : Chunker β)
    (hle : samplesPerChunk ≤ c.audioBuffer.length) (hr : resolves c.emitted.length = false) :
    Chunker.drain resolves c
      = ⟨c.audioBuffer.drop samplesPerChunk,
          c.emitted ++ [c.audioBuffer.take samplesPerChunk]⟩ := by
  rw [Chunker.drain]
  simp only [hle, if_true, hr, Bool.false_eq_true, if_false]

section MicChunks

variable {α : Type} [LinearOrderedField α]

theorem micChunkStep_length (M : MathFns α) (atob : String → Option (List Nat))
    (aec aec2 : SimpleAEC α) (buf : List ReferenceEntry) (chunk p : List (JSNum α))
    (h : micChunkStep M atob aec buf chunk = some (p, aec2)) : p.length = chunk.length := by
  unfold micChunkStep at h
  split at h
  · split at h
    · injection h with h; injection h with h1 _; rw [← h1]
    · split at h
      · exact absurd h (by simp)
      · split at h
        · injection h with h
          rw [← process_length M aec chunk _, h]
        · injection h with h; injection h with h1 _; rw [← h1]
  · injection h with h; injection h with h1 _; rw [← h1]

theorem micChunkStep_empty_buffer (M : MathFns α) (atob : String → Option (List Nat))
    (aec : SimpleAEC α) (chunk : List (JSNum α)) :
    micChunkStep M atob aec [] chunk = some (chunk, aec) := rfl

/-- The loop of `setupMicProcessing` while the per-chunk step does not throw. -/
theorem MicLoop.mic_drain_spec (M : MathFns α) (atob : String → Option (List Nat))
    (buf : List ReferenceEntry)
    (hstep : ∀ (aec : SimpleAEC α) (chunk : List (JSNum α)),
      (micChunkStep M atob aec buf chunk).isSome = true)
    (c : MicLoop α) (hc : c.FullSent) :
    (MicLoop.drain M atob buf c).1.FullSent
    ∧ (MicLoop.drain M atob buf c).1.audioBuffer.length < samplesPerChunk
    ∧ samplesPerChunk * (MicLoop.drain M atob buf c).1.sent.length
        + (MicLoop.drain M atob buf c).1.audioBuffer.length
      = samplesPerChunk * c.sent.length + c.audioBuffer.length
    ∧ (MicLoop.drain M atob buf c).1.audioBuffer <:+ c.audioBuffer
    ∧ (MicLoop.drain M atob buf c).2 = false := by
  have hpos : 0 < samplesPerChunk := by decide
  generalize h : c.audioBuffer.length = n
  induction n using Nat.strong_induction_on generalizing c with
  | _ n ih =>
    rw [MicLoop.drain]
    by_cases hle : samplesPerChunk ≤ c.audioBuffer.length
    · simp only [hle, if_true]
      have hs := hstep c.aecProcessor (c.audioBuffer.take samplesPerChunk)
      cases hm : micChunkStep M atob c.aecProcessor buf (c.audioBuffer.take samplesPerChunk) with
      | none => rw [hm] at hs; simp at hs
      | some res =>
        obtain ⟨p, aec2⟩ := res
        have hp : p.length = samplesPerChunk := by
          rw [micChunkStep_length M atob _ _ _ _ _ hm, List.length_take, Nat.min_eq_left hle]
        have hfull : MicLoop.FullSent
            (⟨c.audioBuffer.drop samplesPerChunk, c.sent ++ [p], aec2⟩ : MicLoop α) := by
          unfold MicLoop.FullSent at hc ⊢
          simp only [List.map_append, List.map_cons, List.map_nil, List.length_append,
            List.length_singleton, hc, hp]
          rw [List.replicate_add]
          rfl
        have hlt : (c.audioBuffer.drop samplesPerChunk).length < n := by
          simp only [List.length_drop]; omega
        obtain ⟨h1, h2, h3, h4, h5⟩ :=
          ih _ hlt ⟨c.audioBuffer.drop samplesPerChunk, c.sent ++ [p], aec2⟩ hfull rfl
        refine ⟨h1, h2, ?_, h4.trans (List.drop_suffix _ _), h5⟩
        rw [h3]
        simp only [List.length_append, List.length_singleton, List.length_drop]
        rw [Nat.mul_add]
        omega
    · simp only [hle, if_false]
      exact ⟨hc, by omega, by omega, List.suffix_refl _, by trivial⟩

theorem MicLoop.mic_run_spec (M : MathFns α) (atob : String → Option (List Nat))
    (events : List (List ReferenceEntry × List (JSNum α)))
    (hstep : ∀ ev ∈ events, ∀ (aec : SimpleAEC α) (chunk : List (JSNum α)),
      (micChunkStep M atob aec ev.1 chunk).isSome = true)
    (c : MicLoop α) (hc : c.FullSent) :
    (events.foldl (fun c ev => (MicLoop.onaudioprocess M atob ev.1 c ev.2).1) c).FullSent
    ∧ (events ≠ [] →
        (events.foldl (fun c ev => (MicLoop.onaudioprocess M atob ev.1 c ev.2).1) c).audioBuffer.length
          < samplesPerChunk)
    ∧ samplesPerChunk
          * (events.foldl (fun c ev => (MicLoop.onaudioprocess M atob ev.1 c ev.2).1) c).sent.length
        + (events.foldl (fun c ev => (MicLoop.onaudioprocess M atob ev.1 c ev.2).1) c).audioBuffer.length
      = samplesPerChunk * c.sent.length + c.audioBuffer.length
          + (events.map (fun ev => ev.2)).flatten.length
    ∧ (events.foldl (fun c ev => (MicLoop.onaudioprocess M atob ev.1 c ev.2).1) c).audioBuffer
        <:+ c.audioBuffer ++ (events.map (fun ev => ev.2)).flatten := by
  induction events generalizing c with
  | nil => exact ⟨hc, fun h => absurd rfl h, by simp, by simp⟩
  | cons ev evs ih =>
    obtain ⟨d1, d2, d3, d4, _⟩ := MicLoop.mic_drain_spec M atob ev.1
      (hstep ev (List.mem_cons_self _ _)) ⟨c.audioBuffer ++ ev.2, c.sent, c.aecProcessor⟩ hc
    obtain ⟨i1, i2, i3, i4⟩ := ih (fun e he => hstep e (List.mem_cons_of_mem _ he))
      (MicLoop.onaudioprocess M atob ev.1 c ev.2).1 d1
    simp only [List.foldl_cons]
    refine ⟨i1, fun _ => ?_, ?_, ?_⟩
    · by_cases hevs : evs = []
      · subst hevs
        exact d2
      · exact i2 hevs
    · rw [i3]
      unfold MicLoop.onaudioprocess
      rw [d3]
      simp only [List.length_append, List.map_cons, List.flatten_cons]
      omega
    · refine i4.trans ?_
      unfold MicLoop.onaudioprocess
      obtain ⟨t, ht⟩ := d4
      refine ⟨t, ?_⟩
      simp only [List.map_cons, List.flatten_cons]
      rw [← List.append_assoc, ht, List.append_assoc]

theorem MicLoop.drain_malformed (M : MathFns α) (atob : String → Option (List Nat))
    (buf : List ReferenceEntry) (e : ReferenceEntry) (c : MicLoop α)
    (hlast : buf.getLast? = some e)
    (hbad : base64ToFloat32Array (α := α) atob e.data = none)
    (hle : samplesPerChunk ≤ c.audioBuffer.length) :
    MicLoop.drain M atob buf c
      = (⟨c.audioBuffer.drop samplesPerChunk, c.sent, c.aecProcessor⟩, true) := by
  rw [MicLoop.drain]
  simp only [hle, if_true, micChunkStep_latest_malformed M atob _ buf e _ hlast hbad]

end MicChunks


/-- C5 as stated fails.  In `setupMicProcessing`, with a one-byte payload as the latest
reference entry, two blocks of 4096 samples pop two chunks and send none, and 3392
samples stay pending, where the claim wants 3 chunks emitted and 992 pending.  In
`setupLinuxMicProcessing`, when the send of the first chunk is rejected, a block of 4800
samples leaves 1 chunk emitted and 2400 samples pending, where the claim wants 2 and 0. -/
theorem C5_throw_leaves_backlog :
    (MicLoop.run (MathFns.mk Real.sqrt Real.tanh Real.exp) (fun _ => some [0])
        [([⟨"AA==", 1⟩], List.replicate 4096 (some (0 : ℝ))),
          ([⟨"AA==", 1⟩], List.replicate 4096 (some (0 : ℝ)))]).sent = []
    ∧ (MicLoop.run (MathFns.mk Real.sqrt Real.tanh Real.exp) (fun _ => some [0])
        [([⟨"AA==", 1⟩], List.replicate 4096 (some (0 : ℝ))),
          ([⟨"AA==", 1⟩], List.replicate 4096 (some (0 : ℝ)))]).audioBuffer.length = 3392
    ∧ (4096 + 4096) / 2400 = 3 ∧ (4096 + 4096) % 2400 = 992
    ∧ (Chunker.run (fun _ => false) [List.replicate 4800 (0 : Nat)]).emitted.length = 1
    ∧ (Chunker.run (fun _ => false) [List.replicate 4800 (0 : Nat)]).audioBuffer.length = 2400
    ∧ 4800 / 2400 = 2 ∧ 4800 % 2400 = 0 := by
  have hN : samplesPerChunk = 2400 := by decide
  have hbad : base64ToFloat32Array (α := ℝ) (fun _ => some [0]) "AA==" = none := rfl
  have hlast : ([⟨"AA==", 1⟩] : List ReferenceEntry).getLast? = some ⟨"AA==", 1⟩ := rfl
  have e1 := MicLoop.drain_malformed (MathFns.mk Real.sqrt Real.tanh Real.exp)
    (fun _ => some [0]) [⟨"AA==", 1⟩] ⟨"AA==", 1⟩
    ⟨[] ++ List.replicate 4096 (some (0 : ℝ)), [], SimpleAEC.init⟩ hlast hbad
    (by simp only [List.nil_append, List.length_replicate, hN]; decide)
  have e2 := MicLoop.drain_malformed (MathFns.mk Real.sqrt Real.tanh Real.exp)
    (fun _ => some [0]) [⟨"AA==", 1⟩] ⟨"AA==", 1⟩
    ⟨([] ++ List.replicate 4096 (some (0 : ℝ))).drop samplesPerChunk
      ++ List.replicate 4096 (some (0 : ℝ)), [], SimpleAEC.init⟩ hlast hbad
    (by simp only [List.nil_append, List.length_append, List.length_drop,
          List.length_replicate, hN]; decide)
  have hrun : MicLoop.run (MathFns.mk Real.sqrt Real.tanh Real.exp) (fun _ => some [0])
        [([⟨"AA==", 1⟩], List.replicate 4096 (some (0 : ℝ))),
          ([⟨"AA==", 1⟩], List.replicate 4096 (some (0 : ℝ)))]
      = ⟨(([] ++ List.replicate 4096 (some (0 : ℝ))).drop samplesPerChunk
          ++ List.replicate 4096 (some (0 : ℝ))).drop samplesPerChunk, [], SimpleAEC.init⟩ := by
    unfold MicLoop.run
    simp only [List.foldl_cons, List.foldl_nil, MicLoop.onaudioprocess, e1, e2]
  have c1 := Chunker.drain_reject (fun _ => false)
    (⟨[] ++ List.replicate 4800 (0 : Nat), []⟩ : Chunker Nat)
    (by simp only [List.nil_append, List.length_replicate, hN]; decide) rfl
  have hchunk : Chunker.run (fun _ => false) [List.replicate 4800 (0 : Nat)]
      = ⟨([] ++ List.replicate 4800 (0 : Nat)).drop samplesPerChunk,
          [] ++ [([] ++ List.replicate 4800 (0 : Nat)).take samplesPerChunk]⟩ := by
    unfold Chunker.run
    simp only [List.foldl_cons, List.foldl_nil, Chunker.onaudioprocess, c1]
  refine ⟨by rw [hrun], ?_, by decide, by decide, by rw [hchunk]; rfl, ?_, by decide, by decide⟩
  · rw [hrun]
    simp only [List.nil_append, List.length_append, List.length_drop, List.length_replicate, hN]
  · rw [hchunk]
    simp only [List.nil_append, List.length_drop, List.length_replicate, hN]


section ChunkingClaim

variable {α : Type} [LinearOrderedField α]

/-- C5, amended.  For the loop of `setupLinuxMicProcessing` (and of
`setupWindowsLoopbackProcessing`), fed blocks from an empty pending buffer, with
`N = samplesPerChunk = 2400` and `L` the number of samples fed: whatever the sends do, the
chunks popped, in order, followed by the pending buffer are the input in order, each chunk
has exactly `N` samples, and at most `L / N` chunks were popped; when every send resolves,
exactly `L / N` chunks were emitted and the pending buffer holds `L % N < N` samples (5000
samples give 2 chunks and 200 pending).  For the loop of `setupMicProcessing`, when at
every event the reference buffer is empty or its latest payload decodes (so that the
per-chunk step does not throw): exactly `L / N` chunks were sent, each of `N` samples, and
the pending buffer is the last `L % N` samples of the input. -/
theorem C5_chunking_while_nothing_throws {β : Type} (M : MathFns α)
    (atob : String → Option (List Nat)) (resolves anySends : Nat → Bool)
    (blocks : List (List β)) (events : List (List ReferenceEntry × List (JSNum α)))
    (hres : ∀ k, resolves k = true)
    (hdec : ∀ ev ∈ events, ev.1 = [] ∨ ∃ (e : ReferenceEntry) (f : List (JSNum α)),
      ev.1.getLast? = some e ∧ base64ToFloat32Array (α := α) atob e.data = some f) :
    samplesPerChunk = 2400
    ∧ (Chunker.run anySends blocks).emitted.flatten ++ (Chunker.run anySends blocks).audioBuffer
        = blocks.flatten
    ∧ (Chunker.run anySends blocks).emitted.map List.length
        = List.replicate (Chunker.run anySends blocks).emitted.length 2400
    ∧ (Chunker.run anySends blocks).emitted.length ≤ blocks.flatten.length / 2400
    ∧ (Chunker.run resolves blocks).emitted.length = blocks.flatten.length / 2400
    ∧ (Chunker.run resolves blocks).emitted.map List.length
        = List.replicate (blocks.flatten.length / 2400) 2400
    ∧ (Chunker.run resolves blocks).audioBuffer.length = blocks.flatten.length % 2400
    ∧ (Chunker.run resolves blocks).audioBuffer.length < 2400
    ∧ (Chunker.run resolves blocks).emitted.flatten ++ (Chunker.run resolves blocks).audioBuffer
        = blocks.flatten
    ∧ (blocks.flatten.length = 5000 →
        (Chunker.run resolves blocks).emitted.length = 2
        ∧ (Chunker.run resolves blocks).audioBuffer.length = 200)
    ∧ (MicLoop.run M atob events).sent.length
        = (events.map (fun ev => ev.2)).flatten.length / 2400
    ∧ (MicLoop.run M atob events).sent.map List.length
        = List.replicate ((events.map (fun ev => ev.2)).flatten.length / 2400) 2400
    ∧ (MicLoop.run M atob events).audioBuffer.length
        = (events.map (fun ev => ev.2)).flatten.length % 2400
    ∧ (MicLoop.run M atob events).audioBuffer
        = (events.map (fun ev => ev.2)).flatten.drop
            ((events.map (fun ev => ev.2)).flatten.length
              - (events.map (fun ev => ev.2)).flatten.length % 2400) := by
  have hN : samplesPerChunk = 2400 := by decide
  have h0 : Chunker.FullChunks (⟨[], []⟩ : Chunker β) := by simp [Chunker.FullChunks]
  -- the loop without the per-chunk step, any send outcomes
  obtain ⟨a1, a2, _⟩ := Chunker.run_spec anySends blocks ⟨[], []⟩ h0
  have acat : (Chunker.run anySends blocks).emitted.flatten
      ++ (Chunker.run anySends blocks).audioBuffer = blocks.flatten := by
    simpa [Chunker.run] using a1
  have afull : (Chunker.run anySends blocks).emitted.map List.length
      = List.replicate (Chunker.run anySends blocks).emitted.length 2400 := by
    have := a2
    unfold Chunker.FullChunks at this
    rw [hN] at this
    exact this
  have alen : (Chunker.run anySends blocks).emitted.length * 2400
      + (Chunker.run anySends blocks).audioBuffer.length = blocks.flatten.length := by
    rw [← acat, List.length_append, length_flatten_of_full _ _ afull]
  -- every send resolves
  obtain ⟨r1, r2, r3⟩ := Chunker.run_spec resolves blocks ⟨[], []⟩ h0
  have rlt : (Chunker.run resolves blocks).audioBuffer.length < 2400 := by
    by_cases hb : blocks = []
    · subst hb; simp [Chunker.run]
    · have := r3 hres hb
      rw [hN] at this
      exact this
  have rcat : (Chunker.run resolves blocks).emitted.flatten
      ++ (Chunker.run resolves blocks).audioBuffer = blocks.flatten := by
    simpa [Chunker.run] using r1
  have rfull : (Chunker.run resolves blocks).emitted.map List.length
      = List.replicate (Chunker.run resolves blocks).emitted.length 2400 := by
    have := r2
    unfold Chunker.FullChunks at this
    rw [hN] at this
    exact this
  have rlen : (Chunker.run resolves blocks).emitted.length * 2400
      + (Chunker.run resolves blocks).audioBuffer.length = blocks.flatten.length := by
    rw [← rcat, List.length_append, length_flatten_of_full _ _ rfull]
  have rq : (Chunker.run resolves blocks).emitted.length = blocks.flatten.length / 2400 := by
    omega
  -- the loop of setupMicProcessing
  have hstep : ∀ ev ∈ events, ∀ (aec : SimpleAEC α) (chunk : List (JSNum α)),
      (micChunkStep M atob aec ev.1 chunk).isSome = true := by
    intro ev hev aec chunk
    rcases hdec ev hev with h | ⟨e, f, hl, hf⟩
    · rw [h, micChunkStep_empty_buffer]; rfl
    · exact micChunkStep_latest_decodes M atob aec ev.1 e chunk f hl hf
  have m0 : MicLoop.FullSent (⟨[], [], SimpleAEC.init⟩ : MicLoop α) := by
    simp [MicLoop.FullSent]
  obtain ⟨m1, m2, m3, m4⟩ := MicLoop.mic_run_spec M atob events hstep ⟨[], [], SimpleAEC.init⟩ m0
  have mlt : (MicLoop.run M atob events).audioBuffer.length < 2400 := by
    by_cases he : events = []
    · subst he; simp [MicLoop.run]
    · have := m2 he
      rw [hN] at this
      exact this
  have mlen : 2400 * (MicLoop.run M atob events).sent.length
      + (MicLoop.run M atob events).audioBuffer.length
      = (events.map (fun ev => ev.2)).flatten.length := by
    have := m3
    rw [hN] at this
    simpa [MicLoop.run] using this
  have mfull : (MicLoop.run M atob events).sent.map List.length
      = List.replicate (MicLoop.run M atob events).sent.length 2400 := by
    have := m1
    unfold MicLoop.FullSent at this
    rw [hN] at this
    exact this
  have mq : (MicLoop.run M atob events).sent.length
      = (events.map (fun ev => ev.2)).flatten.length / 2400 := by omega
  have mmod : (MicLoop.run M atob events).audioBuffer.length
      = (events.map (fun ev => ev.2)).flatten.length % 2400 := by omega
  have msuf : (MicLoop.run M atob events).audioBuffer
      <:+ (events.map (fun ev => ev.2)).flatten := by
    simpa [MicLoop.run] using m4
  refine ⟨hN, acat, afull, by omega, rq, ?_, by omega, rlt, rcat, fun h5 => by omega,
    mq, ?_, mmod, ?_⟩
  · rw [← rq]; exact rfull
  · rw [← mq]; exact mfull
  · have := List.suffix_iff_eq_drop.mp msuf
    rw [mmod] at this
    exact this

/-- C5, amended, at a concrete input: sends that resolve, one block of three samples, and
one microphone event whose latest reference payload decodes to the sample `0.5`. -/
theorem C5_chunking_while_nothing_throws_witness :
    (∀ k : Nat, (fun _ : Nat => true) k = true)
    ∧ (∀ ev ∈ ([([⟨"AEA=", 5⟩], [some (1 / 4 : ℝ)])]
          : List (List ReferenceEntry × List (JSNum ℝ))),
        ev.1 = [] ∨ ∃ (e : ReferenceEntry) (f : List (JSNum ℝ)),
          ev.1.getLast? = some e
          ∧ base64ToFloat32Array (α := ℝ) (fun _ => some [0, 64]) e.data = some f)
    ∧ (Chunker.run (fun _ => true) [[1, 2, 3]]).emitted.length
        = ([[1, 2, 3]] : List (List Nat)).flatten.length / 2400
    ∧ (MicLoop.run (MathFns.mk Real.sqrt Real.tanh Real.exp) (fun _ => some [0, 64])
          [([⟨"AEA=", 5⟩], [some (1 / 4 : ℝ)])]).sent.length
        = (([([⟨"AEA=", 5⟩], [some (1 / 4 : ℝ)])]
            : List (List ReferenceEntry × List (JSNum ℝ))).map (fun ev => ev.2)).flatten.length
          / 2400 := by
  have hdec : ∀ ev ∈ ([([⟨"AEA=", 5⟩], [some (1 / 4 : ℝ)])]
        : List (List ReferenceEntry × List (JSNum ℝ))),
      ev.1 = [] ∨ ∃ (e : ReferenceEntry) (f : List (JSNum ℝ)),
        ev.1.getLast? = some e
        ∧ base64ToFloat32Array (α := ℝ) (fun _ => some [0, 64]) e.data = some f := by
    intro ev hev
    rw [List.mem_singleton] at hev
    subst hev
    exact Or.inr ⟨⟨"AEA=", 5⟩, _, rfl, rfl⟩
  have h := C5_chunking_while_nothing_throws (MathFns.mk Real.sqrt Real.tanh Real.exp)
    (fun _ => some [0, 64]) (fun _ => true) (fun _ => false) [[1, 2, 3]]
    [([⟨"AEA=", 5⟩], [some (1 / 4 : ℝ)])] (fun _ => rfl) hdec
  exact ⟨fun _ => rfl, hdec, h.2.2.2.2.1, h.2.2.2.2.2.2.2.2.2.2.1⟩

end ChunkingClaim

end Glass
